import Mathlib

/-
Verification development for the agentic tool-orchestration core of a
browser-based chat client (chat-controller.js, execution-agent.js,
planning-agent.js, tool-handlers.js, tools-service.js, utils).

Each definition below is a shallow embedding of the corresponding
JavaScript function, translated line by line from the source.  JavaScript
objects are modelled by Lean structures, dynamic values by small inductive
types, exceptions by `Except`, and the asynchronous LLM / network calls by
explicit environment parameters (oracles): the functions under
verification never depend on how those collaborators compute their
answers, only on the answers themselves.
-/

/-! ## Shared data model -/

/-- A search result entry, as produced by `ToolsService.webSearch`
(`parseResults` pushes objects of shape `\x7btitle, url, snippet\x7d`). -/
structure SearchResult where
  title : String
  url : String
  snippet : String
deriving DecidableEq, Repr

/-- The `arguments` object of a plan step or tool call.  The JavaScript
code only ever reads the fields `query`, `url`, `snippets`, `start`,
`length` and `engine`; a missing field reads as `undefined`, modelled by
`none`. -/
structure Args where
  query : Option String := none
  url : Option String := none
  snippets : Option (List String) := none
  start : Option Int := none
  len : Option Int := none
  engine : Option String := none
deriving DecidableEq, Repr

/-- A plan step as created by `PlanningAgent.createPlan`:
`\x7b step, description, tool, arguments \x7d`. -/
structure PlanStep where
  step : Nat
  description : String
  tool : String
  arguments : Args
deriving DecidableEq, Repr

/-- The placeholder URL the planner writes into `read_url` steps
(`<<TO_BE_FILLED_BY_EXECUTOR>>`). -/
def SENTINEL_URL : String := "<<TO_BE_FILLED_BY_EXECUTOR>>"

namespace ChatController

/-! ## ChatController: tool-call loop protection
Embedding of the private state fields `lastToolCall`,
`lastToolCallCount`, `MAX_TOOL_CALL_REPEAT`, `toolWorkflowActive` and
`toolCallHistory` of chat-controller.js, and of the functions
`isToolCallLoop` (lines 695-704) and `processToolCall` (lines 715-729).

A call signature in the source is `JSON.stringify(\x7b tool, args \x7d)`;
two calls have the same signature exactly when they have the same tool
name and the same serialized arguments, so the signature is modelled as
the pair of the tool name and the serialized-argument string. -/

/-- `state.MAX_TOOL_CALL_REPEAT` (chat-controller.js line 20). -/
def MAX_TOOL_CALL_REPEAT : Nat := 3

/-- The loop-protection portion of the controller state:
`state.lastToolCall` (a signature string or `null`) and
`state.lastToolCallCount`. -/
structure LoopState where
  lastToolCall : Option (String × String)
  lastToolCallCount : Nat
deriving DecidableEq, Repr

/-- Embedding of `isToolCallLoop(tool, args)`: mutate the signature
state, then report whether the repeat count exceeds
`MAX_TOOL_CALL_REPEAT`. -/
def isToolCallLoop (s : LoopState) (tool : String) (args : String) :
    LoopState × Bool :=
  let callSignature := (tool, args)
  if s.lastToolCall = some callSignature then
    let s' : LoopState :=
      { lastToolCall := s.lastToolCall
        lastToolCallCount := s.lastToolCallCount + 1 }
    (s', decide (s'.lastToolCallCount > MAX_TOOL_CALL_REPEAT))
  else
    let s' : LoopState :=
      { lastToolCall := some callSignature, lastToolCallCount := 1 }
    (s', decide (s'.lastToolCallCount > MAX_TOOL_CALL_REPEAT))

/-- The slice of `ChatController` state read or written by
`processToolCall` before the workflow-continuation phase. -/
structure ConvState where
  toolWorkflowActive : Bool
  loop : LoopState
  toolCallHistory : List (String × String)
deriving DecidableEq, Repr

/-- Observable outcome of one `processToolCall` invocation. -/
inductive ProcOutcome where
  | inactive
  | loopDetected
  | handlerInvoked
deriving DecidableEq, Repr

/-- The user-visible message emitted on loop detection
(chat-controller.js line 722, with `MAX_TOOL_CALL_REPEAT = 3`). -/
def loopDetectedMessage : String :=
  "Error: Tool call loop detected. The same tool call has been made more than 3 times in a row. Stopping to prevent infinite loop."

/-- Embedding of `processToolCall(call)` up to and including the handler
invocation: bail out if the workflow is inactive, run loop protection,
abort with the loop-detected message on a loop, otherwise log the call
and reach the tool handler.  Modelled from the spec: `executeToolHandler`
(registry dispatch; its body is not under src/, only this call site) is
abstracted to the `handlerInvoked` outcome, which is the only fact the
loop-protection property observes about it. -/
def processToolCall (s : ConvState) (tool : String) (args : String) :
    ConvState × ProcOutcome :=
  if s.toolWorkflowActive = false then (s, ProcOutcome.inactive)
  else
    let p := isToolCallLoop s.loop tool args
    let s := { s with loop := p.1 }
    if p.2 then (s, ProcOutcome.loopDetected)
    else
      ({ s with toolCallHistory := s.toolCallHistory ++ [(tool, args)] },
       ProcOutcome.handlerInvoked)

/-- The controller state at the start of a conversation
(chat-controller.js lines 18-19 and 27): no previous signature, zero
count, workflow active. -/
def initConvState : ConvState :=
  { toolWorkflowActive := true
    loop := { lastToolCall := none, lastToolCallCount := 0 }
    toolCallHistory := [] }

/-- State after presenting the same call `n` times to `processToolCall`,
starting from `initConvState`. -/
def runIdentical (tool args : String) : Nat → ConvState
  | 0 => initConvState
  | n + 1 => (processToolCall (runIdentical tool args n) tool args).1

end ChatController

namespace ExecutionAgent

/-! ## ExecutionAgent.splitIntoBatches
Embedding of the local helper `splitIntoBatches(snips, maxLen)` of
`ExecutionAgent.summarizeAndSynthesize` (execution-agent.js lines
259-274); the same loop appears verbatim in chat-controller.js lines
915-932. -/

/-- The loop body of `splitIntoBatches`: `current` and `currentLen` are
the mutable accumulator batch and its running length; a snippet that
would push a non-empty batch over `maxLen` flushes the batch first. -/
def splitIntoBatchesGo (maxLen : Nat) (current : List String)
    (currentLen : Nat) : List String → List (List String)
  | [] => if current.isEmpty then [] else [current]
  | s :: rest =>
    if currentLen + s.length > maxLen ∧ current ≠ [] then
      current :: splitIntoBatchesGo maxLen [s] s.length rest
    else
      splitIntoBatchesGo maxLen (current ++ [s]) (currentLen + s.length) rest

/-- `splitIntoBatches(snips, maxLen)`. -/
def splitIntoBatches (snips : List String) (maxLen : Nat) :
    List (List String) :=
  splitIntoBatchesGo maxLen [] 0 snips

/-- `MAX_PROMPT_LENGTH` (execution-agent.js line 256). -/
def MAX_PROMPT_LENGTH : Nat := 5857

end ExecutionAgent

namespace ToolHandlers

/-! ## toolHandlers.web_search: URL-based deduplication
Embedding of the dedup loop of tool-handlers.js lines 92-102: walk
`allResults`, keep an entry only if its `url` has not been seen. -/

/-- The dedup loop; `seen` models the `seenUrls` set. -/
def dedupeGo (seen : List String) : List SearchResult → List SearchResult
  | [] => []
  | r :: rest =>
    if r.url ∈ seen then dedupeGo seen rest
    else r :: dedupeGo (r.url :: seen) rest

/-- `uniqueResults` as computed from `allResults`. -/
def dedupeResults (rs : List SearchResult) : List SearchResult :=
  dedupeGo [] rs

end ToolHandlers

namespace PlanningAgent

/-! ## PlanningAgent.createPlan (planning-agent.js lines 20-61)
The template strategy: one `web_search` step per generated search term,
`readStepsPerTerm` sentinel `read_url` steps after each, and a trailing
`summarize` step, numbered by a running counter starting at 1. -/

/-- The `web_search` step pushed for a term at step number `n`. -/
def searchStepFor (term : String) (n : Nat) : PlanStep :=
  { step := n
    description := "Search for information about: \"" ++ term ++ "\""
    tool := "web_search"
    arguments := { query := some term } }

/-- The i-th (0-based) `read_url` step for a term, at step number `n`;
its `url` is the executor sentinel. -/
def readStepFor (term : String) (i : Nat) (n : Nat) : PlanStep :=
  { step := n
    description :=
      "Read content from top result #" ++ toString (i + 1) ++ " for \"" ++
        term ++ "\""
    tool := "read_url"
    arguments := { url := some SENTINEL_URL } }

/-- The trailing `summarize` step at step number `n`. -/
def summarizeStepAt (n : Nat) : PlanStep :=
  { step := n
    description := "Summarize the findings from all read results"
    tool := "summarize"
    arguments := { snippets := some [] } }

/-- The `readStepsPerTerm` read steps for one term, when the search step
took number `n` (so the reads take `n+1 ... n+r`). -/
def readStepsFor (term : String) (r : Nat) (n : Nat) : List PlanStep :=
  (List.range r).map fun i => readStepFor term i (n + 1 + i)

/-- The `for (const term of searchTerms)` loop, threading the running
`stepNum` counter; returns the accumulated steps and the final counter
value. -/
def planLoop (r : Nat) : List String → Nat → List PlanStep × Nat
  | [], n => ([], n)
  | t :: ts, n =>
    let rest := planLoop r ts (n + 1 + r)
    (searchStepFor t n :: (readStepsFor t r n ++ rest.1), rest.2)

/-- The plan built by `createPlan` from the generated `searchTerms`, for
a configured `readStepsPerTerm = r`. -/
def createPlanSteps (searchTerms : List String) (r : Nat) :
    List PlanStep :=
  let body := planLoop r searchTerms 1
  body.1 ++ [summarizeStepAt body.2]

/-- Embedding of `createPlan(userQuery)`.  The outcome of the
search-term-generation step is a parameter:
`none` models `SearchTermGeneratorAgent` being unavailable (the code
then uses `[userQuery]` as the terms), `some (Except.ok ts)` a
successful generation, and `some (Except.error e)` a generation step
that raises.  The surrounding `try/catch` in `createPlan` logs the error
and rethrows it (`throw err`, line 59), so a raising generation step
propagates out of `createPlan`. -/
def createPlan (termGen : Option (Except String (List String)))
    (userQuery : String) (r : Nat) : Except String (List PlanStep) :=
  match termGen with
  | none => Except.ok (createPlanSteps [userQuery] r)
  | some (Except.ok ts) => Except.ok (createPlanSteps ts r)
  | some (Except.error e) => Except.error e

end PlanningAgent

namespace ToolHandlers

/-! ## toolHandlers.read_url: windowed slice (tool-handlers.js 119-140)
After fetching the page text, the handler validates `start` and
`length`, slices the text with `String.prototype.slice(start,
start+length)` and reports `hasMore` when the window stops strictly
before the end of the text. -/

/-- A dynamically typed argument value as the handler may receive it:
the JavaScript `typeof x === 'number'` test distinguishes numbers from
everything else. -/
inductive JsArg where
  | num (n : Int)
  | notNum
deriving DecidableEq, Repr

/-- ECMAScript `String.prototype.slice` for non-negative indices
`a ≤ b`: both are clamped to the string length and the characters
between the clamped bounds are returned. -/
def jsSlice (cs : List Char) (a b : Nat) : List Char :=
  let len := cs.length
  let fromIdx := min a len
  let toIdx := min b len
  (cs.drop fromIdx).take (toIdx - fromIdx)

/-- `(typeof args.start === 'number' && args.start >= 0) ? args.start : 0`. -/
def effectiveStart : Option JsArg → Int
  | some (JsArg.num n) => if n ≥ 0 then n else 0
  | _ => 0

/-- `(typeof args.length === 'number' && args.length > 0) ? args.length : 1122`. -/
def effectiveLength : Option JsArg → Int
  | some (JsArg.num n) => if n > 0 then n else 1122
  | _ => 1122

/-- The pure core of the `read_url` handler: given the fetched page
text and the raw `start`/`length` arguments, the snippet shown to the
user and the `hasMore` flag. -/
def readUrlWindow (pageText : String) (startArg lenArg : Option JsArg) :
    String × Bool :=
  let start := effectiveStart startArg
  let length := effectiveLength lenArg
  let snippet :=
    String.mk (jsSlice pageText.toList start.toNat (start + length).toNat)
  let hasMore := decide (start + length < (pageText.length : Int))
  (snippet, hasMore)

/-! ## toolHandlers.web_search: query-refinement retry loop
Embedding of tool-handlers.js lines 17-86.  The two asynchronous
collaborators are oracles: `searchFn` is `ToolsService.webSearch`
(returning this attempt's parsed result list, or throwing), and
`improve` is the LLM call proposing a better query from the current
query and its results (returning the trimmed reply, or throwing; a
reply of `""` models both an empty reply and the unsupported-model path
that leaves `aiReply` empty). -/

structure SearchEnv where
  searchFn : String → Except String (List SearchResult)
  improve : String → List SearchResult → Except String String

/-- `MAX_ATTEMPTS` (tool-handlers.js line 21). -/
def MAX_ATTEMPTS : Nat := 3

/-- Observable outcome of the `while (attempts < MAX_ATTEMPTS)` loop:
the queries tried, the concatenated raw results of all attempts, the
number of `ToolsService.webSearch` calls made and the number of
refinement requests sent to the model. -/
structure SearchLoopOut where
  queriesTried : List String
  allResults : List SearchResult
  searchCalls : Nat
  improveCalls : Nat
deriving Repr

/-- The retry loop of `toolHandlers.web_search`.  `attempts` is the
source's loop counter and `left` the number of remaining loop-guard
successes (`left = maxA - attempts` at every call, so `left > 0` is the
source's `attempts < MAX_ATTEMPTS` guard).  Each iteration searches
`queriesTried[attempts]`, breaks on a search error, breaks when this
attempt produced at least 3 results or the attempt cap is reached,
otherwise asks the model for a better query and either pushes it (and
increments `attempts`) or breaks when the reply is empty or repeats a
previous query. -/
def webSearchLoop (env : SearchEnv) (maxA : Nat) :
    Nat → Nat → List String → List SearchResult → Nat → Nat →
      SearchLoopOut
  | 0, _, queriesTried, allResults, searchCalls, improveCalls =>
    { queriesTried := queriesTried, allResults := allResults
      searchCalls := searchCalls, improveCalls := improveCalls }
  | left + 1, attempts, queriesTried, allResults, searchCalls,
      improveCalls =>
    match queriesTried[attempts]? with
    | none =>
      { queriesTried := queriesTried, allResults := allResults
        searchCalls := searchCalls, improveCalls := improveCalls }
    | some q =>
      match env.searchFn q with
      | Except.error _ =>
        { queriesTried := queriesTried, allResults := allResults
          searchCalls := searchCalls + 1, improveCalls := improveCalls }
      | Except.ok results =>
        let allResults := allResults ++ results
        if results.length ≥ 3 ∨ attempts = maxA - 1 then
          { queriesTried := queriesTried, allResults := allResults
            searchCalls := searchCalls + 1, improveCalls := improveCalls }
        else
          match env.improve q results with
          | Except.error _ =>
            { queriesTried := queriesTried, allResults := allResults
              searchCalls := searchCalls + 1
              improveCalls := improveCalls + 1 }
          | Except.ok aiReply =>
            if aiReply ≠ "" ∧ aiReply ∉ queriesTried then
              webSearchLoop env maxA left (attempts + 1)
                (queriesTried ++ [aiReply]) allResults (searchCalls + 1)
                (improveCalls + 1)
            else
              { queriesTried := queriesTried, allResults := allResults
                searchCalls := searchCalls + 1
                improveCalls := improveCalls + 1 }

/-- The whole search phase of the handler for an initial `args.query`:
run the loop from `attempts = 0` with `queriesTried = [query]`, then
deduplicate the concatenated results by URL (lines 92-102). -/
def webSearchRun (env : SearchEnv) (query : String) :
    SearchLoopOut × List SearchResult :=
  let out := webSearchLoop env MAX_ATTEMPTS MAX_ATTEMPTS 0 [query] [] 0 0
  (out, dedupeResults out.allResults)

end ToolHandlers

namespace ExecutionAgent

/-! ## ExecutionAgent.executePlan (execution-agent.js lines 23-244)
The plan walk: a `while (i < plan.length)` loop over a plan array that
is mutated in place (sentinel URL resolution, read-step rewriting and
removal after a search, fallback-step insertion).  Tool handlers and the
LLM calls are oracles in an `ExecEnv`. -/

/-- A dynamically typed tool-handler return value, as far as
`executePlan` inspects it: `Array.isArray(result)` (a search result
array), an object carrying a `snippet` string (what the chunked reader
expects), or anything else (`undefined`, other objects...). -/
inductive JsVal where
  | undef
  | arr (rs : List SearchResult)
  | page (snippet : String)
deriving DecidableEq, Repr

/-- A handler either returns a value or throws. -/
inductive HandlerOutcome where
  | ret (v : JsVal)
  | thrown (msg : String)
deriving Repr

/-- An entry of the `results` array: `\x7bstep, result\x7d` (for
`read_url` the result is the `\x7burl, snippet\x7d` pair built by the
deep-reading loop) or `\x7bstep, error\x7d`. -/
inductive StepResult where
  | ok (step : Nat) (v : JsVal)
  | readOk (step : Nat) (url : String) (snippet : String)
  | err (step : Nat) (msg : String)
deriving DecidableEq, Repr

/-- The executor's collaborators.
`handlers` is the `toolHandlers` registry (`none` models the silent
`undefined` lookup of an unregistered name).
`askMore` is the deep-reading LLM call for a given page url and chunk
start offset (its reply, or a throw).
`selectReply` is the result-selection LLM call for a given query and
result list (its reply, or a throw).
`summarizeNote` abstracts `summarizeAndSynthesize` — a cascade of LLM
calls all of whose effects are narration; it neither touches the
executor state nor throws (every model call inside it is wrapped in
`try/catch`). -/
structure ExecEnv where
  handlers : String → Option (Args → HandlerOutcome)
  askMore : String → Nat → Except String String
  selectReply : String → List SearchResult → Except String String
  summarizeNote : List String → String → List String

/-- The executor's mutable state: the (mutating) plan, the loop index
`i`, the latest `web_search` result array (`null` before the first
search), the collected snippets, the `results` array, and the messages
sent through `narrateFn`. -/
structure ExecState where
  plan : List PlanStep
  i : Nat
  webSearchResults : Option (List SearchResult)
  collectedSnippets : List String
  results : List StepResult
  narrations : List String
deriving Repr

/-- Initial executor state for a plan. -/
def initExecState (plan : List PlanStep) : ExecState :=
  { plan := plan, i := 0, webSearchResults := none
    collectedSnippets := [], results := [], narrations := [] }

/-- `plan.filter(s => s.tool === 'read_url').indexOf(step)` for the step
at position `i`: JavaScript `indexOf` compares object references, so for
the step currently being executed this is the number of `read_url`
steps strictly before position `i`. -/
def readUrlIndexAt (plan : List PlanStep) (i : Nat) : Nat :=
  ((plan.take i).filter fun s => s.tool == "read_url").length

/-- `parseInt(s.trim(), 10)` for the token strings produced by splitting
the selection reply (tokens consist of digits and spaces only):
`parseInt` reads the leading digit run of the trimmed token and yields
`NaN` (here `none`) when there is none. -/
def parseIntJs (s : String) : Option Nat :=
  let t := s.trim.toList.takeWhile Char.isDigit
  if t.isEmpty then none
  else some (String.mk t).toNat!

/-- `aiReply.match(/([\d, ]+)/)`: the first maximal run of digits,
commas and spaces in the reply, if any. -/
def firstDigitRun (s : String) : Option (List Char) :=
  let isRun : Char → Bool := fun c => c.isDigit || c = ',' || c = ' '
  let rest := s.toList.dropWhile fun c => !(isRun c)
  match rest with
  | [] => none
  | _ => some (rest.takeWhile isRun)

/-- Splitting a character list on `,` (JavaScript `String.split(',')`). -/
def splitOnComma (cs : List Char) : List String :=
  let parts := cs.foldr
    (fun c acc =>
      match acc with
      | [] => [[c]]
      | p :: ps => if c = ',' then [] :: (p :: ps) else (c :: p) :: ps)
    [[]]
  parts.map String.mk

/-- `match[1].split(',').map(s => parseInt(s.trim(), 10) - 1)
.filter(n => !isNaN(n) && n >= 0 && n < len)` — the 0-based indices of
the results the model selected.  When the reply contains no digit run at
all (`match` is `null`) the selection stays `[]`. -/
def parseSelection (aiReply : String) (len : Nat) : List Nat :=
  if aiReply = "" then []
  else
    match firstDigitRun aiReply with
    | none => []
    | some run =>
      ((splitOnComma run).filterMap fun tok =>
        match parseIntJs tok with
        | none => none
        | some n => if 1 ≤ n ∧ n - 1 < len then some (n - 1) else none)

/-- The catch-branch fallback selection: `[0, 1, 2].filter(idx => idx <
webSearchResults.length)`. -/
def fallbackSelection (len : Nat) : List Nat :=
  [0, 1, 2].filter fun idx => idx < len

/-- The rewrite loop (execution-agent.js lines 200-213): walk the whole
plan, give the k-th `read_url` step the URL of the k-th selected result,
and splice out `read_url` steps with no corresponding selection (the
`j--` after `splice` makes the walk continue at the next element). -/
def rewriteReadUrls (sel : List Nat) (rs : List SearchResult) :
    List PlanStep → Nat → List PlanStep
  | [], _ => []
  | p :: rest, k =>
    if p.tool == "read_url" then
      match sel[k]? with
      | some si =>
        match rs[si]? with
        | some r =>
          { p with arguments := { p.arguments with url := some r.url } } ::
            rewriteReadUrls sel rs rest (k + 1)
        | none => rewriteReadUrls sel rs rest (k + 1)
      | none => rewriteReadUrls sel rs rest (k + 1)
    else p :: rewriteReadUrls sel rs rest k

/-- List insertion at an index (JavaScript `plan.splice(i, 0, x)`):
inserts before position `i`, appends when `i` exceeds the length. -/
def insertAt (xs : List PlanStep) (i : Nat) (x : PlanStep) :
    List PlanStep :=
  xs.take i ++ x :: xs.drop i

/-- The fallback `instant_answer` step synthesized after an empty
search (execution-agent.js lines 220-225).  The description is a
template literal, so a missing `query` is interpolated as the string
`undefined`. -/
def instantStepFor (step : PlanStep) : PlanStep :=
  { step := step.step + 1
    description :=
      "Fallback: Get instant answer for \"" ++
        (match step.arguments.query with
         | some q => q
         | none => "undefined") ++ "\""
    tool := "instant_answer"
    arguments := { query := step.arguments.query } }

/-- The deep-reading loop for a `read_url` step (execution-agent.js
lines 85-139): fetch chunks of `chunkSize = 2000` starting at `start`,
stop when the handler yields no snippet (a missing or empty `snippet`
is falsy), when the LLM call fails or answers anything but yes, when
`maxChunks = 5` chunks were read, or when 10000 total characters were
accumulated.  The `while` guard `chunkCount < maxChunks` is checked
*before* each fetch; `fuel` is `maxChunks - chunkCount`, consumed on
entry to each iteration, so a run started with `fuel = 5` fetches at
most 5 chunks.  A throw from the handler propagates (to the outer
`try/catch` of the step loop). -/
def deepRead (env : ExecEnv) (toolFn : Args → HandlerOutcome)
    (url : String) : Nat → Nat → Nat → String → Except String String
  | 0, _, _, acc => Except.ok acc
  | fuel + 1, start, totalLen, acc =>
    if totalLen ≥ 10000 then Except.ok acc
    else
      match toolFn { url := some url, start := some (start : Int),
                     len := some 2000 } with
      | HandlerOutcome.thrown m => Except.error m
      | HandlerOutcome.ret v =>
        match v with
        | JsVal.page s =>
          if s = "" then Except.ok acc
          else
            let acc := acc ++ s
            let totalLen := totalLen + s.length
            match env.askMore url start with
            | Except.error _ => Except.ok acc
            | Except.ok reply =>
              if (reply.trim.toLower).startsWith "yes" ∧ totalLen < 10000
              then
                deepRead env toolFn url fuel (start + 2000) totalLen acc
              else Except.ok acc
        | _ => Except.ok acc

/-- `Step N: description` narration (execution-agent.js line 66). -/
def stepNarration (step : PlanStep) : String :=
  "Step " ++ toString step.step ++ ": " ++ step.description

/-- The unknown-tool error message (line 71). -/
def unknownToolMsg (tool : String) : String :=
  "Error: Tool handler for \"" ++ tool ++ "\" not found."

/-- The caught-exception error message (line 232). -/
def stepErrorMsg (stepNo : Nat) (m : String) : String :=
  "Error in step " ++ toString stepNo ++ ": " ++ m

/-- `plan[0]?.arguments?.query || ''` (line 35). -/
def firstStepQuery (plan : List PlanStep) : String :=
  match plan[0]? with
  | some s => s.arguments.query.getD ""
  | none => ""

/-- Outcome of the dispatch tail of one loop iteration: either the walk
continues with the next index (`next`) or the `break` of the `catch`
branch ends it (`halted`). -/
inductive DispatchOut where
  | next (st : ExecState)
  | halted (st : ExecState)
deriving Repr

/-- The dispatch tail of one loop iteration (execution-agent.js lines
64-240): narrate the step, look the tool up in the registry — an
unregistered tool records an error and *continues* with the next step —
then run the handler inside the `try/catch`: the `read_url` deep-reading
branch, or a plain call followed by the `web_search` post-processing
(result storing, LLM-driven read-step selection, empty-result
`instant_answer` fallback insertion).  A throw records the error and
*stops* the walk (`break`). -/
def execStepDispatch (env : ExecEnv) (st : ExecState) (step : PlanStep) :
    DispatchOut :=
  let st := { st with narrations := st.narrations ++ [stepNarration step] }
  match env.handlers step.tool with
  | none =>
    let msg := unknownToolMsg step.tool
    DispatchOut.next
      { st with
        narrations := st.narrations ++ [msg]
        results := st.results ++ [StepResult.err step.step msg]
        i := st.i + 1 }
  | some toolFn =>
    if step.tool == "read_url" then
      let url := step.arguments.url.getD ""
      match deepRead env toolFn url 5 0 0 "" with
      | Except.error m =>
        DispatchOut.halted
          { st with
            narrations := st.narrations ++ [stepErrorMsg step.step m]
            results := st.results ++
              [StepResult.err step.step (stepErrorMsg step.step m)] }
      | Except.ok snippet =>
        DispatchOut.next
          { st with
            collectedSnippets := st.collectedSnippets ++ [snippet]
            results := st.results ++ [StepResult.readOk step.step url snippet]
            narrations := st.narrations ++
              ["Deep reading complete for " ++ url ++ ", snippet length: " ++
                toString snippet.length]
            i := st.i + 1 }
    else
      match toolFn step.arguments with
      | HandlerOutcome.thrown m =>
        DispatchOut.halted
          { st with
            narrations := st.narrations ++ [stepErrorMsg step.step m]
            results := st.results ++
              [StepResult.err step.step (stepErrorMsg step.step m)] }
      | HandlerOutcome.ret v =>
        let st :=
          { st with results := st.results ++ [StepResult.ok step.step v] }
        match v with
        | JsVal.arr rs =>
          if step.tool == "web_search" then
            let st := { st with webSearchResults := some rs }
            let st :=
              if 0 < rs.length then
                let sel :=
                  match env.selectReply (step.arguments.query.getD "") rs
                  with
                  | Except.ok reply => parseSelection reply rs.length
                  | Except.error _ => fallbackSelection rs.length
                { st with plan := rewriteReadUrls sel rs st.plan 0 }
              else st
            let st :=
              if rs.length = 0 ∧
                  st.plan.any (fun s => s.tool == "instant_answer") = false
              then
                { st with
                  plan := insertAt st.plan (st.i + 1) (instantStepFor step) }
              else st
            DispatchOut.next { st with i := st.i + 1 }
          else DispatchOut.next { st with i := st.i + 1 }
        | _ => DispatchOut.next { st with i := st.i + 1 }

/-- One pass of the `while (i < plan.length)` loop plus the rest of the
run, with `fuel` bounding the number of iterations.  Handles, in source
order: the end of the plan, the `summarize` interception, the sentinel
`read_url` resolution/skip, and otherwise hands the (possibly resolved)
step to `execStepDispatch`, continuing or stopping as it says. -/
def execLoop (env : ExecEnv) : Nat → ExecState → ExecState
  | 0, st => st
  | fuel + 1, st =>
    match st.plan[st.i]? with
    | none => st
    | some step =>
      if step.tool == "summarize" then
        let resolved :=
          { step with arguments :=
              { step.arguments with snippets := some st.collectedSnippets } }
        execLoop env fuel
          { st with
            plan := st.plan.set st.i resolved
            narrations := st.narrations ++
              env.summarizeNote st.collectedSnippets (firstStepQuery st.plan)
            i := st.i + 1 }
      else
        if step.tool == "read_url" ∧ step.arguments.url = some SENTINEL_URL
        then
          match st.webSearchResults with
          | none =>
            execLoop env fuel
              { st with
                narrations := st.narrations ++
                  ["Skipping read_url step: No web search results available."]
                i := st.i + 1 }
          | some rs =>
            let idx := readUrlIndexAt st.plan st.i
            match rs[idx]? with
            | some r =>
              let resolved :=
                { step with arguments :=
                    { step.arguments with url := some r.url } }
              match execStepDispatch env
                  { st with plan := st.plan.set st.i resolved } resolved with
              | DispatchOut.halted st' => st'
              | DispatchOut.next st' => execLoop env fuel st'
            | none =>
              execLoop env fuel
                { st with
                  narrations := st.narrations ++
                    ["Skipping read_url step #" ++ toString (idx + 1) ++
                      ": No corresponding web search result."]
                  i := st.i + 1 }
        else
          match execStepDispatch env st step with
          | DispatchOut.halted st' => st'
          | DispatchOut.next st' => execLoop env fuel st'

/-- How the loop consumes a dispatch outcome: continue on `next`, end
the run on `halted` (the `break`). -/
def execDispatchContinue (env : ExecEnv) (fuel : Nat) (d : DispatchOut) :
    ExecState :=
  match d with
  | DispatchOut.halted st' => st'
  | DispatchOut.next st' => execLoop env fuel st'

/-- `executePlan(plan)`: run the loop from the initial state with the
given iteration budget. -/
def executePlan (env : ExecEnv) (fuel : Nat) (plan : List PlanStep) :
    ExecState :=
  execLoop env fuel (initExecState plan)

end ExecutionAgent

namespace ChatController

/-! ## extractToolCall (chat-controller.js lines 38-152)
The tool-call extraction pipeline: text normalization (code fences,
comments, trailing commas, embedded newlines, single quotes), delimiter
or first-JSON-object extraction, `JSON.parse` after
`Utils.sanitizeJsonString`, a regex fallback, and the shape-normalization
ladder.  JavaScript values are modelled by a small JSON AST; `JSON.parse`
by a recursive-descent parser covering the integer subset of JSON
numbers (ample for the tool-call wire format, whose only numeric
arguments are the integers `start` and `length`). -/

/-- JSON values / parsed JavaScript objects. -/
inductive Json where
  | null
  | bool (b : Bool)
  | num (n : Int)
  | str (s : String)
  | arr (elems : List Json)
  | obj (fields : List (String × Json))

/-- The backtick character (code-fence marker). -/
def backtickC : Char := Char.ofNat 96

/-- The single-quote character. -/
def squoteC : Char := Char.ofNat 39

/-- The backslash character. -/
def backslashC : Char := Char.ofNat 92

/-- JavaScript `\s` on the inputs of interest: space, tab, newline,
carriage return, vertical tab, form feed. -/
def isJsWs (c : Char) : Bool :=
  c = ' ' || c = '\t' || c = '\n' || c = '\r' ||
    c = Char.ofNat 11 || c = Char.ofNat 12

/-- `String.prototype.trim()`. -/
def trimJs (cs : List Char) : List Char :=
  ((cs.dropWhile isJsWs).reverse.dropWhile isJsWs).reverse

/-- Case-insensitively drop a literal from the front of the input, if
present. -/
def tryDropCI : List Char → List Char → Option (List Char)
  | [], cs => some cs
  | _ :: _, [] => none
  | l :: lit, c :: cs =>
    if c.toLower = l.toLower then tryDropCI lit cs else none

/-- `text.replace(/(three backticks)(?:json|tool_code)?/gi, '')` followed
by removing any remaining fence markers: scan for three consecutive
backticks and drop them together with a following `json` or `tool_code`
(case-insensitive, `json` tried first, as in the alternation). -/
def stripFences (fuel : Nat) (cs : List Char) : List Char :=
  match fuel, cs with
  | 0, cs => cs
  | _, [] => []
  | fuel + 1, c :: rest =>
    if c = backtickC then
      match rest with
      | c2 :: c3 :: rest2 =>
        if c2 = backtickC ∧ c3 = backtickC then
          match tryDropCI "json".toList rest2 with
          | some r => stripFences fuel r
          | none =>
            match tryDropCI "tool_code".toList rest2 with
            | some r => stripFences fuel r
            | none => stripFences fuel rest2
        else c :: stripFences fuel rest
      | _ => c :: stripFences fuel rest
    else c :: stripFences fuel rest

/-- Split a character list at every occurrence of a separator char
(JavaScript `String.split`). -/
def splitOnChar (sep : Char) (cs : List Char) : List (List Char) :=
  cs.foldr
    (fun c acc =>
      match acc with
      | [] => [[c]]
      | p :: ps => if c = sep then [] :: (p :: ps) else (c :: p) :: ps)
    [[]]

/-- Cut one line at the first `//` (the per-line effect of
`text.replace(/\/\/.*$/gm, '')`). -/
def cutLineComment : List Char → List Char
  | [] => []
  | c :: rest =>
    if c = '/' then
      match rest with
      | c2 :: _ => if c2 = '/' then [] else c :: cutLineComment rest
      | [] => [c]
    else c :: cutLineComment rest

/-- `text.replace(/\/\/.*$/gm, '')`. -/
def stripLineComments (cs : List Char) : List Char :=
  List.intercalate ['\n'] ((splitOnChar '\n' cs).map cutLineComment)

/-- Position after the next `*/`, if any. -/
def afterBlockClose : List Char → Option (List Char)
  | [] => none
  | c :: rest =>
    if c = '*' then
      match rest with
      | c2 :: rest2 => if c2 = '/' then some rest2 else afterBlockClose rest
      | [] => none
    else afterBlockClose rest

/-- `text.replace(/\/\*[\s\S]*?\*\//g, '')`: drop each `/* ... */`
block (lazily up to the nearest close); an unclosed `/*` is left in
place. -/
def stripBlockComments (fuel : Nat) (cs : List Char) : List Char :=
  match fuel, cs with
  | 0, cs => cs
  | _, [] => []
  | fuel + 1, c :: rest =>
    if c = '/' then
      match rest with
      | c2 :: rest2 =>
        if c2 = '*' then
          match afterBlockClose rest2 with
          | some after => stripBlockComments fuel after
          | none => c :: stripBlockComments fuel rest
        else c :: stripBlockComments fuel rest
      | [] => [c]
    else c :: stripBlockComments fuel rest

/-- `text.replace(/,\s*([}\]])/g, '$1')`: a comma followed by optional
whitespace and a closing bracket is replaced by the bracket. -/
def removeTrailingCommas (fuel : Nat) (cs : List Char) : List Char :=
  match fuel, cs with
  | 0, cs => cs
  | _, [] => []
  | fuel + 1, c :: rest =>
    if c = ',' then
      match rest.dropWhile isJsWs with
      | b :: rest2 =>
        if b = '}' ∨ b = ']' then b :: removeTrailingCommas fuel rest2
        else c :: removeTrailingCommas fuel rest
      | [] => c :: removeTrailingCommas fuel rest
    else c :: removeTrailingCommas fuel rest

/-- Scan a quoted-string body as the regex
`"([^"\x5c]*(?:\x5c.[^"\x5c]*)*)"` does: plain characters, or a
backslash paired with any following character, up to the closing
quote.  Returns the body and the remainder after the closing quote. -/
def scanQuoted : List Char → Option (List Char × List Char)
  | [] => none
  | c :: rest =>
    if c = '"' then some ([], rest)
    else if c = backslashC then
      match rest with
      | e :: rest2 =>
        match scanQuoted rest2 with
        | some (body, after) => some (c :: e :: body, after)
        | none => none
      | [] => none
    else
      match scanQuoted rest with
      | some (body, after) => some (c :: body, after)
      | none => none

/-- The newline-collapsing pass: each matched quoted string has its
literal newline characters removed (`m.replace(/\n/g, '')`). -/
def collapseNewlinesInStrings (fuel : Nat) (cs : List Char) :
    List Char :=
  match fuel, cs with
  | 0, cs => cs
  | _, [] => []
  | fuel + 1, c :: rest =>
    if c = '"' then
      match scanQuoted rest with
      | some (body, after) =>
        '"' :: (body.filter fun x => x ≠ '\n') ++
          '"' :: collapseNewlinesInStrings fuel after
      | none => c :: collapseNewlinesInStrings fuel rest
    else c :: collapseNewlinesInStrings fuel rest

/-- `text.replace(/'/g, '"')`. -/
def singleToDouble (cs : List Char) : List Char :=
  cs.map fun c => if c = squoteC then '"' else c

/-- The preprocessing pipeline of `extractToolCall` (chat-controller.js
lines 41-50), in source order. -/
def preprocessText (s : String) : String :=
  let cs := s.toList
  let cs := trimJs (stripFences cs.length cs)
  let cs := stripBlockComments cs.length (stripLineComments cs)
  let cs := removeTrailingCommas cs.length cs
  let cs := collapseNewlinesInStrings cs.length cs
  String.mk (singleToDouble cs)

/-- Split the input around the first occurrence of a literal substring:
returns the part before and the part after it. -/
def splitAtSub (pat : List Char) : List Char → Option (List Char × List Char)
  | [] => if pat.isEmpty then some ([], []) else none
  | c :: rest =>
    if pat.isPrefixOf (c :: rest) then some ([], (c :: rest).drop pat.length)
    else
      match splitAtSub pat rest with
      | some (before, after) => some (c :: before, after)
      | none => none

/-- `text.match(/\[\[TOOLCALL\]\]([\s\S]*?)\[\[\/TOOLCALL\]\]/)`: the
capture between the first opening delimiter and the nearest closing
delimiter after it. -/
def extractDelimited (cs : List Char) : Option (List Char) :=
  match splitAtSub "[[TOOLCALL]]".toList cs with
  | none => none
  | some (_, afterOpen) =>
    match splitAtSub "[[/TOOLCALL]]".toList afterOpen with
    | none => none
    | some (between, _) => some between

/-- `text.match(/\x7b[\s\S]*?\x7d/)`: from the first opening brace,
lazily, to the first closing brace after it. -/
def firstBraceChunk (cs : List Char) : Option (List Char) :=
  match cs.dropWhile (fun c => c ≠ '{') with
  | [] => none
  | b :: rest =>
    let inner := rest.takeWhile fun c => c ≠ '}'
    match rest.drop inner.length with
    | close :: _ => some (b :: inner ++ [close])
    | [] => none

/-! ### JSON.parse -/

/-- Skip JSON whitespace. -/
def skipJsonWs (cs : List Char) : List Char :=
  cs.dropWhile fun c => c = ' ' || c = '\t' || c = '\n' || c = '\r'

/-- Hexadecimal digit value. -/
def hexVal (c : Char) : Option Nat :=
  if c.isDigit then some (c.toNat - '0'.toNat)
  else if 'a' ≤ c ∧ c ≤ 'f' then some (c.toNat - 'a'.toNat + 10)
  else if 'A' ≤ c ∧ c ≤ 'F' then some (c.toNat - 'A'.toNat + 10)
  else none

/-- Parse a JSON string body after the opening quote, honouring the
standard escapes; unescaped control characters are a parse error. -/
def parseJsonStringBody (acc : List Char) : List Char →
    Option (String × List Char)
  | [] => none
  | c :: rest =>
    if c = '"' then some (String.mk acc.reverse, rest)
    else if c = backslashC then
      match rest with
      | [] => none
      | e :: rest2 =>
        if e = '"' ∨ e = backslashC ∨ e = '/' then
          parseJsonStringBody (e :: acc) rest2
        else if e = 'b' then parseJsonStringBody (Char.ofNat 8 :: acc) rest2
        else if e = 'f' then parseJsonStringBody (Char.ofNat 12 :: acc) rest2
        else if e = 'n' then parseJsonStringBody ('\n' :: acc) rest2
        else if e = 'r' then parseJsonStringBody ('\r' :: acc) rest2
        else if e = 't' then parseJsonStringBody ('\t' :: acc) rest2
        else if e = 'u' then
          match rest2 with
          | h1 :: h2 :: h3 :: h4 :: rest3 =>
            match hexVal h1, hexVal h2, hexVal h3, hexVal h4 with
            | some a, some b, some c2, some d =>
              parseJsonStringBody
                (Char.ofNat (((a * 16 + b) * 16 + c2) * 16 + d) :: acc) rest3
            | _, _, _, _ => none
          | _ => none
        else none
    else if c.toNat < 32 then none
    else parseJsonStringBody (c :: acc) rest

/-- Parse a JSON integer (optional minus sign, digits, no redundant
leading zero); fractions and exponents are outside the modelled
subset. -/
def parseJsonInt (cs : List Char) : Option (Int × List Char) :=
  let (neg, cs') :=
    match cs with
    | c :: rest => if c = '-' then (true, rest) else (false, cs)
    | [] => (false, cs)
  let digits := cs'.takeWhile Char.isDigit
  if digits.isEmpty then none
  else if digits.length > 1 ∧ digits.head? = some '0' then none
  else
    let rest := cs'.drop digits.length
    match rest with
    | c :: _ => if c = '.' ∨ c = 'e' ∨ c = 'E' then none else
        some (if neg then -(String.mk digits).toNat! else
          (String.mk digits).toNat!, rest)
    | [] =>
      some (if neg then -(String.mk digits).toNat! else
        (String.mk digits).toNat!, rest)

mutual

/-- Recursive-descent `JSON.parse`, value production.  An opening brace
or bracket immediately followed (after whitespace) by its closer yields
the empty object/array; otherwise the nonempty member/item list is
parsed. -/
def parseJsonValue : Nat → List Char → Option (Json × List Char)
  | 0, _ => none
  | fuel + 1, cs =>
    let cs := skipJsonWs cs
    match cs with
    | [] => none
    | c :: rest =>
      if c = '"' then
        match parseJsonStringBody [] rest with
        | some (s, after) => some (Json.str s, after)
        | none => none
      else if c = '{' then
        match skipJsonWs rest with
        | '}' :: after => some (Json.obj [], after)
        | other =>
          match parseJsonFields fuel other [] with
          | some (fs, after) => some (Json.obj fs, after)
          | none => none
      else if c = '[' then
        match skipJsonWs rest with
        | ']' :: after => some (Json.arr [], after)
        | other =>
          match parseJsonElems fuel other [] with
          | some (xs, after) => some (Json.arr xs, after)
          | none => none
      else if "null".toList.isPrefixOf cs then
        some (Json.null, cs.drop 4)
      else if "true".toList.isPrefixOf cs then
        some (Json.bool true, cs.drop 4)
      else if "false".toList.isPrefixOf cs then
        some (Json.bool false, cs.drop 5)
      else
        match parseJsonInt cs with
        | some (n, after) => some (Json.num n, after)
        | none => none

/-- A nonempty sequence of `"key": value` pairs followed by `\x7d`. -/
def parseJsonFields : Nat → List Char → List (String × Json) →
    Option (List (String × Json) × List Char)
  | 0, _, _ => none
  | fuel + 1, cs, acc =>
    match skipJsonWs cs with
    | '"' :: rest =>
      match parseJsonStringBody [] rest with
      | none => none
      | some (key, afterKey) =>
        match skipJsonWs afterKey with
        | ':' :: afterColon =>
          match parseJsonValue fuel afterColon with
          | none => none
          | some (v, afterVal) =>
            match skipJsonWs afterVal with
            | ',' :: afterComma => parseJsonFields fuel afterComma
                (acc ++ [(key, v)])
            | '}' :: afterClose => some (acc ++ [(key, v)], afterClose)
            | _ => none
        | _ => none
    | _ => none

/-- A nonempty sequence of values followed by `]`. -/
def parseJsonElems : Nat → List Char → List Json →
    Option (List Json × List Char)
  | 0, _, _ => none
  | fuel + 1, cs, acc =>
    match parseJsonValue fuel cs with
    | none => none
    | some (v, afterVal) =>
      match skipJsonWs afterVal with
      | ',' :: afterComma => parseJsonElems fuel afterComma (acc ++ [v])
      | ']' :: afterClose => some (acc ++ [v], afterClose)
      | _ => none

end

/-- `JSON.parse`: a complete value with nothing but whitespace after
it. -/
def jsonParse (s : String) : Option Json :=
  match parseJsonValue (s.length + 16) s.toList with
  | some (v, rest) => if skipJsonWs rest = [] then some v else none
  | none => none

/-! ### The regex fallback
`/(tool|action)\s*[:=]\s*['"]?(\w+)['"]?[,\s]+(arguments|query|url|queries)\s*[:=]\s*([\x7b\x5b].*[\x7d\x5d]|['"].*?['"])/s`
(chat-controller.js lines 64 and 94; the two occurrences are the same
pattern).  The matcher below implements this specific pattern with the
JavaScript leftmost-match, ordered-alternation and greedy/lazy
semantics; every quantified character class in the pattern is disjoint
from what must follow it, so maximal munch is exact, and the remaining
choice points (the two optional quotes, the key alternation, the value
alternation) are tried in regex order with backtracking. -/

/-- A successful fallback match: `m[2]` (the tool word), `m[3]` (the
matched key) and `m[4]` (the raw value text). -/
structure FallbackMatch where
  toolName : String
  key : String
  rawValue : String
deriving DecidableEq, Repr

/-- `\w`. -/
def isWordC (c : Char) : Bool := c.isAlpha || c.isDigit || c = '_'

/-- Match `m[4]`: either from an opening `\x7b`/`[` greedily to the last
`\x7d`/`]` in the remaining text, or from a quote lazily to the next
quote. -/
def matchValueRaw (cs : List Char) : Option (List Char) :=
  match cs with
  | [] => none
  | c :: rest =>
    if c = '{' ∨ c = '[' then
      let dropped := rest.reverse.dropWhile fun x => ¬ (x = '}' ∨ x = ']')
      match dropped with
      | [] => none
      | _ => some (c :: dropped.reverse)
    else if c = '"' ∨ c = squoteC then
      let inner := rest.takeWhile fun x => ¬ (x = '"' ∨ x = squoteC)
      match rest.drop inner.length with
      | q :: _ => some (c :: inner ++ [q])
      | [] => none
    else none

/-- After the key: `\s* [:=] \s*` then the value. -/
def matchKeyColonValue (toolName key : String) (cs : List Char) :
    Option FallbackMatch :=
  match cs.dropWhile isJsWs with
  | c :: rest =>
    if c = ':' ∨ c = '=' then
      (matchValueRaw (rest.dropWhile isJsWs)).map fun v =>
        { toolName := toolName, key := key, rawValue := String.mk v }
    else none
  | [] => none

/-- Try one key literal of the alternation. -/
def tryKeyLit (toolName : String) (lit : String) (cs : List Char) :
    Option FallbackMatch :=
  if lit.toList.isPrefixOf cs then
    matchKeyColonValue toolName lit (cs.drop lit.length)
  else none

/-- `(arguments|query|url|queries)` in alternation order, with
backtracking into the following parts. -/
def matchKeyAlts (toolName : String) (cs : List Char) :
    Option FallbackMatch :=
  (tryKeyLit toolName "arguments" cs) <|>
    (tryKeyLit toolName "query" cs) <|>
      (tryKeyLit toolName "url" cs) <|> tryKeyLit toolName "queries" cs

/-- `[,\s]+` (at least one comma or whitespace) then the key part. -/
def matchSepThenKeys (toolName : String) (cs : List Char) :
    Option FallbackMatch :=
  let sep := cs.takeWhile fun c => c = ',' || isJsWs c
  if sep.isEmpty then none
  else matchKeyAlts toolName (cs.drop sep.length)

/-- The optional quote after `(\w+)` (greedy: prefer consuming it). -/
def matchAfterWord (toolName : String) (cs : List Char) :
    Option FallbackMatch :=
  match cs with
  | c :: rest =>
    if c = '"' ∨ c = squoteC then
      (matchSepThenKeys toolName rest) <|> matchSepThenKeys toolName cs
    else matchSepThenKeys toolName cs
  | [] => none

/-- `(\w+)` — the captured tool word — then the rest. -/
def matchWordCore (cs : List Char) : Option FallbackMatch :=
  let w := cs.takeWhile isWordC
  if w.isEmpty then none
  else matchAfterWord (String.mk w) (cs.drop w.length)

/-- The optional quote before `(\w+)` (greedy). -/
def matchWordPart (cs : List Char) : Option FallbackMatch :=
  (match cs with
   | c :: rest =>
     if c = '"' ∨ c = squoteC then matchWordCore rest else none
   | [] => none) <|> matchWordCore cs

/-- After the `tool`/`action` literal: `\s* [:=] \s*` then the word
part. -/
def matchAfterToolLit (cs : List Char) : Option FallbackMatch :=
  match cs.dropWhile isJsWs with
  | c :: rest =>
    if c = ':' ∨ c = '=' then matchWordPart (rest.dropWhile isJsWs)
    else none
  | [] => none

/-- A match attempt anchored at the current position: `(tool|action)` in
alternation order. -/
def matchAtPos (cs : List Char) : Option FallbackMatch :=
  (if "tool".toList.isPrefixOf cs then matchAfterToolLit (cs.drop 4)
   else none) <|>
    (if "action".toList.isPrefixOf cs then matchAfterToolLit (cs.drop 6)
     else none)

/-- The leftmost match of the fallback pattern in the text. -/
def fallbackScan : List Char → Option FallbackMatch
  | [] => none
  | c :: rest => (matchAtPos (c :: rest)) <|> fallbackScan rest

/-- Build the returned object from a fallback match (chat-controller.js
lines 67-75 / 97-105): for `arguments`, `JSON.parse(m[4])` with `\x7b\x7d`
on parse failure; for `query`/`url`/`queries`, the raw value with every
quote character removed (`m[4].replace(/['"]/g, '')`). -/
def buildFromFallback (m : FallbackMatch) : Json :=
  if m.key = "arguments" then
    let args :=
      match jsonParse m.rawValue with
      | some j => j
      | none => Json.obj []
    Json.obj [("tool", Json.str m.toolName), ("arguments", args)]
  else
    let cleaned :=
      String.mk (m.rawValue.toList.filter fun c => ¬ (c = '"' ∨ c = squoteC))
    Json.obj
      [("tool", Json.str m.toolName),
       ("arguments", Json.obj [(m.key, Json.str cleaned)])]

/-! ### Shape normalization (chat-controller.js lines 116-151) -/

/-- JavaScript truthiness of a parsed value. -/
def jsTruthy : Json → Bool
  | Json.null => false
  | Json.bool b => b
  | Json.num n => n != 0
  | Json.str s => s ≠ ""
  | Json.arr _ => true
  | Json.obj _ => true

/-- Property access `j.name`: only objects carry properties here; with
duplicate keys `JSON.parse` keeps the last one. -/
def getField (j : Json) (name : String) : Option Json :=
  match j with
  | Json.obj fields => (fields.reverse.find? fun f => f.1 == name).map (·.2)
  | _ => none

/-- `j.name` when it is truthy (the guard pattern `if (obj.x)` and the
value pattern `obj.x || fallback`). -/
def getTruthy (j : Json) (name : String) : Option Json :=
  match getField j name with
  | some v => if jsTruthy v then some v else none
  | none => none

/-- `typeof v === 'object'` (objects, arrays and `null`). -/
def isObjectType : Json → Bool
  | Json.obj _ => true
  | Json.arr _ => true
  | Json.null => true
  | _ => false

/-- Property assignment `j[name] = v` (overwrites on read since
`getField` keeps the last occurrence); assignment to a non-object is
dropped. -/
def setField (j : Json) (name : String) (v : Json) : Json :=
  match j with
  | Json.obj fields => Json.obj (fields ++ [(name, v)])
  | other => other

/-- The `arguments` object built in the `tool_call` branch
(lines 123-127). -/
def toolCallArgs (tc : Json) : Json :=
  let args :=
    match getTruthy tc "arguments" with
    | some a => a
    | none => Json.obj []
  let args :=
    match getTruthy tc "query" with
    | some q => setField args "query" q
    | none => args
  let args :=
    match getTruthy tc "url" with
    | some u => setField args "url" u
    | none => args
  match getTruthy tc "queries" with
  | some qs => setField args "queries" qs
  | none => args

/-- `typeof obj.arguments === 'object'` as a field test. -/
def fieldIsObjectType (obj : Json) (name : String) : Bool :=
  match getField obj name with
  | some a => isObjectType a
  | none => false

/-- `obj.tool_call.tool || obj.tool_call.action` as a guard. -/
def toolCallHasName (obj : Json) : Bool :=
  match getField obj "tool_call" with
  | some tc => (getTruthy tc "tool").isSome || (getTruthy tc "action").isSome
  | none => false

/-- The accept-and-normalize ladder run on the parsed object. -/
def normalizeToolCall (obj : Json) : Option Json :=
  if (getTruthy obj "tool").isSome ∧ fieldIsObjectType obj "arguments" then
    some obj
  else if (getTruthy obj "tool_call").isSome ∧ toolCallHasName obj then
    match getField obj "tool_call" with
    | some tc =>
      let tool :=
        match getTruthy tc "tool" with
        | some t => t
        | none => (getTruthy tc "action").getD Json.null
      some (Json.obj [("tool", tool), ("arguments", toolCallArgs tc)])
    | none => none
  else if (getTruthy obj "tool_code").isSome ∧ (getTruthy obj "url").isSome
  then
    match getTruthy obj "tool_code", getTruthy obj "url" with
    | some tc, some u =>
      some (Json.obj
        [("tool", tc), ("arguments", Json.obj [("url", u)])])
    | _, _ => none
  else if (getTruthy obj "tool").isSome ∧ (getTruthy obj "query").isSome
  then
    match getTruthy obj "tool", getTruthy obj "query" with
    | some t, some q =>
      some (Json.obj
        [("tool", t), ("arguments", Json.obj [("query", q)])])
    | _, _ => none
  else if (getTruthy obj "tool").isSome ∧ (getTruthy obj "queries").isSome
  then
    match getTruthy obj "tool", getTruthy obj "queries" with
    | some t, some qs =>
      some (Json.obj
        [("tool", t), ("arguments", Json.obj [("queries", qs)])])
    | _, _ => none
  else if (getTruthy obj "action").isSome ∧ (getTruthy obj "query").isSome
  then
    match getTruthy obj "action", getTruthy obj "query" with
    | some t, some q =>
      some (Json.obj
        [("tool", t), ("arguments", Json.obj [("query", q)])])
    | _, _ => none
  else if (getTruthy obj "action").isSome ∧
      (getTruthy obj "queries").isSome then
    match getTruthy obj "action", getTruthy obj "queries" with
    | some t, some qs =>
      some (Json.obj
        [("tool", t), ("arguments", Json.obj [("queries", qs)])])
    | _, _ => none
  else if (getTruthy obj "action").isSome ∧ (getTruthy obj "url").isSome
  then
    match getTruthy obj "action", getTruthy obj "url" with
    | some t, some u =>
      some (Json.obj
        [("tool", t), ("arguments", Json.obj [("url", u)])])
    | _, _ => none
  else none

/-- `Utils.sanitizeJsonString` (utils lines 365-373): trailing commas,
single quotes, then embedded newlines. -/
def sanitizeJsonString (s : String) : String :=
  let cs := s.toList
  let cs := removeTrailingCommas cs.length cs
  let cs := singleToDouble cs
  String.mk (collapseNewlinesInStrings cs.length cs)

/-- The JSON-parse stage on an extracted candidate string (lines 81-115):
trim, sanitize, `JSON.parse`, normalize; on a parse error, the regex
fallback runs on the *unsanitized* trimmed candidate, and a failing
fallback is the could-not-parse error path (`null`). -/
def parseStage (jsonStr : String) : Option Json :=
  let jsonStr := String.mk (trimJs jsonStr.toList)
  match jsonParse (sanitizeJsonString jsonStr) with
  | some obj => normalizeToolCall obj
  | none =>
    match fallbackScan jsonStr.toList with
    | some m => some (buildFromFallback m)
    | none => none

/-- `extractToolCall(text)` (chat-controller.js lines 38-152). -/
def extractToolCall (text : String) : Option Json :=
  let t := (preprocessText text).toList
  match extractDelimited t with
  | some between =>
    if between.isEmpty then none else parseStage (String.mk between)
  | none =>
    match firstBraceChunk t with
    | some chunk => parseStage (String.mk chunk)
    | none =>
      match fallbackScan t with
      | some m => some (buildFromFallback m)
      | none => none

/-! ### The canonical wire form (JSON.stringify) -/

/-- `JSON.stringify` escaping for one character. -/
def escapeJsonChar (c : Char) : List Char :=
  if c = '"' then [backslashC, '"']
  else if c = backslashC then [backslashC, backslashC]
  else if c = '\n' then [backslashC, 'n']
  else if c = '\r' then [backslashC, 'r']
  else if c = '\t' then [backslashC, 't']
  else if c = Char.ofNat 8 then [backslashC, 'b']
  else if c = Char.ofNat 12 then [backslashC, 'f']
  else if c.toNat < 32 then
    let hex : Nat → Char := fun n =>
      if n < 10 then Char.ofNat ('0'.toNat + n)
      else Char.ofNat ('a'.toNat + (n - 10))
    [backslashC, 'u', '0', '0', hex (c.toNat / 16), hex (c.toNat % 16)]
  else [c]

/-- A JSON string literal. -/
def stringifyStr (s : String) : String :=
  String.mk ('"' :: (s.toList.flatMap escapeJsonChar) ++ ['"'])

mutual

/-- Compact `JSON.stringify` of a value. -/
def jsonStringify : Json → String
  | Json.null => "null"
  | Json.bool true => "true"
  | Json.bool false => "false"
  | Json.num n => toString n
  | Json.str s => stringifyStr s
  | Json.arr xs =>
    "[" ++ String.intercalate "," (jsonStringifyList xs) ++ "]"
  | Json.obj fs =>
    String.mk ['{'] ++ String.intercalate "," (jsonStringifyFields fs) ++
      String.mk ['}']

/-- Stringify array elements. -/
def jsonStringifyList : List Json → List String
  | [] => []
  | x :: xs => jsonStringify x :: jsonStringifyList xs

/-- Stringify object fields. -/
def jsonStringifyFields : List (String × Json) → List String
  | [] => []
  | (k, v) :: fs => (stringifyStr k ++ ":" ++ jsonStringify v) ::
      jsonStringifyFields fs

end

/-- A well-formed ToolCall: a tool name plus an arguments mapping. -/
structure ToolCall where
  tool : String
  arguments : List (String × Json)

/-- The canonical JSON wire form of a tool call,
`JSON.stringify(\x7b tool, arguments \x7d)` with insertion-ordered keys —
exactly the shape the system prompt instructs the model to emit
(chat-controller.js lines 186-190). -/
def serializeToolCall (c : ToolCall) : String :=
  jsonStringify (Json.obj
    [("tool", Json.str c.tool), ("arguments", Json.obj c.arguments)])

/-- The Json value a successful `extract` of a canonical call would have
to return for the round-trip property to hold. -/
def toolCallJson (c : ToolCall) : Json :=
  Json.obj [("tool", Json.str c.tool), ("arguments", Json.obj c.arguments)]

/-- The concrete tool call used to exercise the round trip — the
spec's own scenario input (§8). -/
def wsCall : ToolCall :=
  { tool := "web_search"
    arguments := [("query", Json.str "capital of France")] }

end ChatController

/-! ## Concrete fixtures used by counterexamples and witnesses -/

namespace ToolHandlers

/-- A search environment whose single attempt yields three raw results
with a duplicated URL (two unique), and whose refinement oracle always
offers a fresh query. -/
def dupEnv : SearchEnv :=
  { searchFn := fun _ => Except.ok
      [{ title := "A", url := "u1", snippet := "a" },
       { title := "A again", url := "u1", snippet := "a2" },
       { title := "B", url := "u2", snippet := "b" }]
    improve := fun _ _ => Except.ok "a better query" }

/-- A search environment whose first attempt yields two results and
whose refinement oracle proposes the fresh query `q2`. -/
def retryEnv : SearchEnv :=
  { searchFn := fun q =>
      if q = "q1" then Except.ok
        [{ title := "A", url := "u1", snippet := "a" },
         { title := "B", url := "u2", snippet := "b" }]
      else Except.ok []
    improve := fun _ _ => Except.ok "q2" }

end ToolHandlers

namespace ExecutionAgent

/-- A two-step plan whose first step names an unregistered tool. -/
def unknownToolPlan : List PlanStep :=
  [{ step := 1, description := "mystery step", tool := "mystery"
     arguments := {} },
   { step := 2, description := "known step", tool := "known"
     arguments := {} }]

/-- An environment registering only the tool `known` (returning
`undefined`), with inert oracles. -/
def contEnv : ExecEnv :=
  { handlers := fun t =>
      if t = "known" then some fun _ => HandlerOutcome.ret JsVal.undef
      else none
    askMore := fun _ _ => Except.ok ""
    selectReply := fun _ _ => Except.ok ""
    summarizeNote := fun _ _ => [] }

/-- An environment whose tool `boom` always throws. -/
def throwEnv : ExecEnv :=
  { handlers := fun t =>
      if t = "boom" then some fun _ => HandlerOutcome.thrown "kaput"
      else none
    askMore := fun _ _ => Except.ok ""
    selectReply := fun _ _ => Except.ok ""
    summarizeNote := fun _ _ => [] }

/-- A `boom` step. -/
def throwStep : PlanStep :=
  { step := 1, description := "will throw", tool := "boom", arguments := {} }

/-- A sentinel `read_url` step. -/
def sentinelStep : PlanStep :=
  { step := 1, description := "read first result", tool := "read_url"
    arguments := { url := some SENTINEL_URL } }

end ExecutionAgent

/-! # Theorems -/

namespace ExecutionAgent

/-- `splitIntoBatchesGo` keeps every snippet, in order. -/
theorem splitIntoBatchesGo_flatten (B : Nat) :
    ∀ (rest cur : List String) (len : Nat),
      (splitIntoBatchesGo B cur len rest).flatten = cur ++ rest := by
  intro rest
  induction rest with
  | nil =>
    intro cur len
    simp only [splitIntoBatchesGo]
    split
    · simp_all [List.isEmpty_iff]
    · simp
  | cons s rest ih =>
    intro cur len
    simp only [splitIntoBatchesGo]
    split
    · simp [ih]
    · simp [ih]

/-- Every batch produced by `splitIntoBatchesGo` fits the budget or is
an oversized singleton, provided the accumulator batch does. -/
theorem splitIntoBatchesGo_batches (B : Nat) :
    ∀ (rest cur : List String) (len : Nat),
      len = (cur.map String.length).sum →
      ((cur.map String.length).sum ≤ B ∨ ∃ s, cur = [s] ∧ B < s.length) →
      ∀ b ∈ splitIntoBatchesGo B cur len rest,
        (b.map String.length).sum ≤ B ∨ ∃ s, b = [s] ∧ B < s.length := by
  intro rest
  induction rest with
  | nil =>
    intro cur len _ hgood b hb
    simp only [splitIntoBatchesGo] at hb
    split at hb
    · simp at hb
    · rw [List.mem_singleton] at hb
      exact hb ▸ hgood
  | cons s rest ih =>
    intro cur len hlen hgood b hb
    simp only [splitIntoBatchesGo] at hb
    split at hb
    · rcases List.mem_cons.mp hb with h | h
      · exact h ▸ hgood
      · refine ih [s] s.length (by simp) ?_ b h
        by_cases hs : s.length ≤ B
        · exact Or.inl (by simpa using hs)
        · exact Or.inr ⟨s, rfl, by omega⟩
    · rename_i hcond
      refine ih (cur ++ [s]) (len + s.length) (by simp [hlen]) ?_ b hb
      rcases not_and_or.mp hcond with h | h
      · left
        simp only [List.map_append, List.sum_append, List.map_cons,
          List.sum_cons, List.map_nil, List.sum_nil]
        omega
      · have : cur = [] := by
          by_contra hc
          exact h hc
        subst this
        by_cases hs : s.length ≤ B
        · exact Or.inl (by simpa using hs)
        · exact Or.inr ⟨s, rfl, by omega⟩

/-- C3: for any snippet sequence and budget `B`, `splitIntoBatches`
produces batches each of concatenated length at most `B` — except that
a single snippet longer than `B` sits in a batch of its own — and the
concatenation of all batches equals the original sequence in order. -/
theorem splitIntoBatches_spec (snips : List String) (B : Nat) :
    (splitIntoBatches snips B).flatten = snips ∧
    ∀ b ∈ splitIntoBatches snips B,
      (b.map String.length).sum ≤ B ∨ ∃ s, b = [s] ∧ B < s.length := by
  constructor
  · simpa [splitIntoBatches] using splitIntoBatchesGo_flatten B snips [] 0
  · intro b hb
    exact splitIntoBatchesGo_batches B snips [] 0 (by simp)
      (Or.inl (by simp)) b hb

/-- C3 witness: a concrete run, with the batch property instantiated on
a concrete batch. -/
theorem splitIntoBatches_spec_witness :
    (splitIntoBatches ["ab", "cd", "efg"] 4).flatten = ["ab", "cd", "efg"] ∧
    ((["ab", "cd"].map String.length).sum ≤ 4 ∨
      ∃ s, ["ab", "cd"] = [s] ∧ 4 < s.length) := by
  refine ⟨(splitIntoBatches_spec ["ab", "cd", "efg"] 4).1, ?_⟩
  exact (splitIntoBatches_spec ["ab", "cd", "efg"] 4).2 ["ab", "cd"]
    (by decide)

end ExecutionAgent

namespace ToolHandlers

/-- Entries surviving `dedupeGo` have URLs outside `seen`. -/
theorem dedupeGo_url_not_seen (rs : List SearchResult) :
    ∀ (seen : List String), ∀ r ∈ dedupeGo seen rs, r.url ∉ seen := by
  induction rs with
  | nil => intro seen r hr; simp [dedupeGo] at hr
  | cons x rest ih =>
    intro seen r hr
    simp only [dedupeGo] at hr
    split at hr
    · exact ih seen r hr
    · rcases List.mem_cons.mp hr with h | h
      · subst h; assumption
      · have := ih (x.url :: seen) r h
        exact fun hc => this (List.mem_cons_of_mem _ hc)

/-- `dedupeGo` output has pairwise distinct URLs. -/
theorem dedupeGo_pairwise (rs : List SearchResult) :
    ∀ seen : List String,
      (dedupeGo seen rs).Pairwise fun a b => a.url ≠ b.url := by
  induction rs with
  | nil => intro seen; simp [dedupeGo]
  | cons x rest ih =>
    intro seen
    simp only [dedupeGo]
    split
    · exact ih seen
    · refine List.Pairwise.cons ?_ (ih (x.url :: seen))
      intro b hb hEq
      have := dedupeGo_url_not_seen rest (x.url :: seen) b hb
      exact this (hEq ▸ List.mem_cons_self _ _)

/-- `dedupeGo` output is a sublist of the input (first-seen order is
preserved). -/
theorem dedupeGo_sublist (rs : List SearchResult) :
    ∀ seen : List String, (dedupeGo seen rs).Sublist rs := by
  induction rs with
  | nil => intro seen; simp [dedupeGo]
  | cons x rest ih =>
    intro seen
    simp only [dedupeGo]
    split
    · exact (ih seen).cons x
    · exact (ih (x.url :: seen)).cons₂ x

/-- Every unseen input URL survives deduplication. -/
theorem dedupeGo_complete (rs : List SearchResult) :
    ∀ (seen : List String), ∀ r ∈ rs, r.url ∉ seen →
      ∃ r' ∈ dedupeGo seen rs, r'.url = r.url := by
  induction rs with
  | nil => intro seen r hr; simp at hr
  | cons x rest ih =>
    intro seen r hr hseen
    by_cases hmem : x.url ∈ seen
    · simp only [dedupeGo, if_pos hmem]
      rcases List.mem_cons.mp hr with rfl | h
      · exact absurd hmem hseen
      · exact ih seen r h hseen
    · simp only [dedupeGo, if_neg hmem]
      rcases List.mem_cons.mp hr with rfl | h
      · exact ⟨r, List.mem_cons_self _ _, rfl⟩
      · by_cases hx : r.url = x.url
        · exact ⟨x, List.mem_cons_self _ _, hx.symm⟩
        · obtain ⟨r', hr', hurl⟩ := ih (x.url :: seen) r h
            (by simp [hseen, hx])
          exact ⟨r', List.mem_cons_of_mem _ hr', hurl⟩

/-- Each survivor is the *first* input entry carrying its URL. -/
theorem dedupeGo_first (rs : List SearchResult) :
    ∀ (seen : List String), ∀ r ∈ dedupeGo seen rs,
      (rs.filter fun x => x.url == r.url).head? = some r := by
  induction rs with
  | nil => intro seen r hr; simp [dedupeGo] at hr
  | cons x rest ih =>
    intro seen r hr
    simp only [dedupeGo] at hr
    split at hr
    · rename_i hx
      have hne : r.url ≠ x.url := by
        intro hEq
        exact dedupeGo_url_not_seen rest seen r hr (hEq ▸ hx)
      have : (x.url == r.url) = false := by
        simp [BEq.beq]
        exact fun h => hne h.symm
      simp only [List.filter_cons, this]
      exact ih seen r hr
    · rename_i hx
      rcases List.mem_cons.mp hr with h | h
      · subst h
        simp [List.filter_cons]
      · have hne : r.url ≠ x.url := by
          intro hEq
          exact dedupeGo_url_not_seen rest (x.url :: seen) r h
            (by simp [hEq])
        have : (x.url == r.url) = false := by
          simp [BEq.beq]
          exact fun hc => hne hc.symm
        simp only [List.filter_cons, this]
        exact ih (x.url :: seen) r h

/-- C4: the web_search handler's URL deduplication yields no two entries
with equal `url`; the survivors form a sublist of the input (relative
order preserved), every input URL is still represented, and each
survivor is exactly the first input entry with its URL. -/
theorem dedupe_spec (rs : List SearchResult) :
    (dedupeResults rs).Pairwise (fun a b => a.url ≠ b.url) ∧
    (dedupeResults rs).Sublist rs ∧
    (∀ r ∈ rs, ∃ r' ∈ dedupeResults rs, r'.url = r.url) ∧
    (∀ r ∈ dedupeResults rs,
      (rs.filter fun x => x.url == r.url).head? = some r) := by
  refine ⟨dedupeGo_pairwise rs [], dedupeGo_sublist rs [], ?_, ?_⟩
  · intro r hr
    exact dedupeGo_complete rs [] r hr (by simp)
  · intro r hr
    exact dedupeGo_first rs [] r hr

/-- C4 witness: deduplication of a concrete result list with a repeated
URL. -/
theorem dedupe_spec_witness :
    ∃ r' ∈ dedupeResults
      [{ title := "A", url := "u1", snippet := "a" },
       { title := "B", url := "u1", snippet := "b" },
       { title := "C", url := "u2", snippet := "c" }],
      r'.url = ({ title := "B", url := "u1", snippet := "b" } :
        SearchResult).url := by
  exact (dedupe_spec _).2.2.1 _ (by decide)

end ToolHandlers

namespace PlanningAgent

/-- The plan-body loop numbers its steps consecutively from the initial
counter, and returns the counter it ended on. -/
theorem planLoop_numbering (r : Nat) :
    ∀ (ts : List String) (n : Nat),
      ((planLoop r ts n).1).map PlanStep.step =
        List.range' n ((planLoop r ts n).1).length ∧
      (planLoop r ts n).2 = n + ((planLoop r ts n).1).length := by
  intro ts
  induction ts with
  | nil => intro n; simp [planLoop]
  | cons t ts ih =>
    intro n
    obtain ⟨ihmap, ihn⟩ := ih (n + 1 + r)
    simp only [planLoop, List.map_cons, List.map_append, List.length_cons,
      List.length_append]
    have hreads : (readStepsFor t r n).map PlanStep.step =
        List.range' (n + 1) r := by
      simp [readStepsFor, List.range'_eq_map_range, Function.comp,
        readStepFor]
    have hlenreads : (readStepsFor t r n).length = r := by
      simp [readStepsFor]
    constructor
    · rw [hreads, ihmap, hlenreads]
      have happ : List.range' (n + 1) r ++
          List.range' (n + 1 + r) ((planLoop r ts (n + 1 + r)).1).length =
          List.range' (n + 1) (((planLoop r ts (n + 1 + r)).1).length + r)
          := by
        have := List.range'_append (n + 1) r
          (((planLoop r ts (n + 1 + r)).1).length) 1
        simpa [Nat.add_comm, Nat.add_assoc, Nat.add_left_comm] using this
      rw [happ]
      have hss : (searchStepFor t n).step = n := rfl
      rw [hss]
      have hr : List.range' n
          (r + ((planLoop r ts (n + 1 + r)).1).length + 1) =
          n :: List.range' (n + 1)
            (((planLoop r ts (n + 1 + r)).1).length + r) := by
        rw [List.range'_succ,
          Nat.add_comm r (((planLoop r ts (n + 1 + r)).1).length)]
      rw [hr]
    · rw [ihn, hlenreads]
      omega

/-- C5: every plan produced by `createPlan` — any search-term list, any
`readStepsPerTerm` — carries step indices that are exactly
`1, 2, ..., plan.length`: contiguous from 1, no gaps, no repeats. -/
theorem createPlan_step_numbering (ts : List String) (r : Nat) :
    (createPlanSteps ts r).map PlanStep.step =
      List.range' 1 ((createPlanSteps ts r).length) := by
  obtain ⟨hmap, hn⟩ := planLoop_numbering r ts 1
  simp only [createPlanSteps, List.map_append, List.length_append,
    List.map_cons, List.map_nil, List.length_cons, List.length_nil]
  rw [hmap, hn]
  have hsum : (summarizeStepAt (1 + ((planLoop r ts 1).1).length)).step =
      1 + ((planLoop r ts 1).1).length := rfl
  rw [hsum]
  have happ := List.range'_append 1 (((planLoop r ts 1).1).length) 1 1
  simp only [Nat.one_mul, List.range'_one] at happ
  simpa [Nat.add_comm] using happ

/-- C6 counterexample: when the term-generation step raises,
`createPlan` does *not* fall back to `[userQuery]` — its `catch` block
rethrows, so the error propagates to the caller. -/
theorem createPlan_no_fallback_on_raise :
    createPlan (some (Except.error "term generation failed"))
        "latest news" 3 =
      Except.error "term generation failed" ∧
    createPlan (some (Except.error "term generation failed"))
        "latest news" 3 ≠
      Except.ok (createPlanSteps ["latest news"] 3) := by
  refine ⟨rfl, ?_⟩
  intro h
  exact Except.noConfusion h

/-- C6 (amended): `createPlan` uses `[userQuery]` as the sole search
term only when no term generator is available; a successful generation
is used as-is; and an exception from the generation step propagates out
of `createPlan` (the `catch` rethrows) instead of falling back. -/
theorem createPlan_termGen_behavior :
    (∀ (q : String) (r : Nat),
      createPlan none q r = Except.ok (createPlanSteps [q] r)) ∧
    (∀ (ts : List String) (q : String) (r : Nat),
      createPlan (some (Except.ok ts)) q r =
        Except.ok (createPlanSteps ts r)) ∧
    (∀ (e q : String) (r : Nat),
      createPlan (some (Except.error e)) q r = Except.error e) :=
  ⟨fun _ _ => rfl, fun _ _ _ => rfl, fun _ _ _ => rfl⟩

end PlanningAgent

namespace ChatController

/-- The loop-state update made by `isToolCallLoop`, and the meaning of
its Boolean verdict. -/
theorem isToolCallLoop_chr (ls : LoopState) (t a : String) :
    (isToolCallLoop ls t a).1 =
      (if ls.lastToolCall = some (t, a)
       then { lastToolCall := ls.lastToolCall
              lastToolCallCount := ls.lastToolCallCount + 1 }
       else { lastToolCall := some (t, a), lastToolCallCount := 1 }) ∧
    ((isToolCallLoop ls t a).2 = true ↔
      3 < ((isToolCallLoop ls t a).1).lastToolCallCount) := by
  unfold isToolCallLoop MAX_TOOL_CALL_REPEAT
  by_cases h : ls.lastToolCall = some (t, a) <;> simp [h]

/-- When the workflow is active, `processToolCall` installs the
`isToolCallLoop` state, keeps the workflow active, and reports a loop
exactly when the verdict was positive. -/
theorem processToolCall_chr (s : ConvState) (t a : String)
    (hact : s.toolWorkflowActive = true) :
    ((processToolCall s t a).1).toolWorkflowActive = true ∧
    ((processToolCall s t a).1).loop = (isToolCallLoop s.loop t a).1 ∧
    (processToolCall s t a).2 =
      (if (isToolCallLoop s.loop t a).2 = true then ProcOutcome.loopDetected
       else ProcOutcome.handlerInvoked) := by
  simp only [processToolCall, hact]
  by_cases h : (isToolCallLoop s.loop t a).2 = true <;> simp [h]

/-- After `n` presentations of the same call from the initial state, the
workflow is still active and the loop state holds that signature with
count `n`. -/
theorem runIdentical_state (t a : String) :
    ∀ n : Nat,
      (runIdentical t a n).toolWorkflowActive = true ∧
      (runIdentical t a n).loop.lastToolCallCount = n ∧
      (runIdentical t a n).loop.lastToolCall =
        (if n = 0 then none else some (t, a)) := by
  intro n
  induction n with
  | zero => simp [runIdentical, initConvState]
  | succ n ih =>
    obtain ⟨hact, hcount, hsig⟩ := ih
    obtain ⟨hact', hloop, -⟩ :=
      processToolCall_chr (runIdentical t a n) t a hact
    obtain ⟨hupd, -⟩ := isToolCallLoop_chr (runIdentical t a n).loop t a
    have hrun : runIdentical t a (n + 1) =
        (processToolCall (runIdentical t a n) t a).1 := rfl
    rw [hrun]
    refine ⟨hact', ?_, ?_⟩
    · rw [hloop, hupd]
      by_cases hn : n = 0
      · subst hn
        rw [hsig]
        simp
      · rw [hsig, if_neg hn, if_pos rfl]
        simpa using hcount
    · rw [hloop, hupd]
      by_cases hn : n = 0
      · subst hn
        rw [hsig]
        simp
      · rw [hsig, if_neg hn, if_pos rfl]
        simp [hsig, hn]

/-- C1: presenting the same tool call repeatedly to `processToolCall`,
the first three invocations reach the tool handler and every invocation
from the fourth onward is rejected by loop protection (the
`n`-indexed form: after `n` earlier identical calls, the next call
reaches the handler exactly when `n < 3`); and a call whose signature
differs from the stored one resets the repeat counter to 1 and reaches
the handler. -/
theorem loopProtection_spec (t a : String) :
    (∀ n : Nat,
      (processToolCall (runIdentical t a n) t a).2 =
        (if n < 3 then ProcOutcome.handlerInvoked
         else ProcOutcome.loopDetected)) ∧
    (∀ s : ConvState, s.toolWorkflowActive = true →
      s.loop.lastToolCall ≠ some (t, a) →
      (processToolCall s t a).2 = ProcOutcome.handlerInvoked ∧
      ((processToolCall s t a).1).loop.lastToolCallCount = 1) := by
  constructor
  · intro n
    obtain ⟨hact, hcount, hsig⟩ := runIdentical_state t a n
    obtain ⟨-, -, hout⟩ := processToolCall_chr (runIdentical t a n) t a hact
    obtain ⟨hupd, hverd⟩ :=
      isToolCallLoop_chr (runIdentical t a n).loop t a
    rw [hout]
    by_cases hn : n = 0
    · subst hn
      have hv : (isToolCallLoop (runIdentical t a 0).loop t a).2 = false :=
        by
        rw [Bool.eq_false_iff]
        intro hv
        have := hverd.mp hv
        rw [hupd, hsig] at this
        simp at this
      simp [hv]
    · have hcnt : LoopState.lastToolCallCount
          ((isToolCallLoop (runIdentical t a n).loop t a).1) = n + 1 := by
        rw [hupd, hsig, if_neg hn, if_pos rfl]
        simpa using hcount
      by_cases h3 : n < 3
      · have hv : (isToolCallLoop (runIdentical t a n).loop t a).2 = false
            := by
          rw [Bool.eq_false_iff]
          intro hv
          have := hverd.mp hv
          rw [hcnt] at this
          omega
        simp [hv, h3]
      · have hv : (isToolCallLoop (runIdentical t a n).loop t a).2 = true
            := by
          rw [hverd, hcnt]
          omega
        simp [hv, h3]
  · intro s hact hdiff
    obtain ⟨-, hloop, hout⟩ := processToolCall_chr s t a hact
    obtain ⟨hupd, hverd⟩ := isToolCallLoop_chr s.loop t a
    have hv : (isToolCallLoop s.loop t a).2 = false := by
      rw [Bool.eq_false_iff]
      intro hv
      have := hverd.mp hv
      rw [hupd, if_neg hdiff] at this
      simp at this
    constructor
    · rw [hout, hv]
      simp
    · rw [hloop, hupd, if_neg hdiff]

/-- C1 witness: the fourth identical `read_url` call is rejected while
a fresh call from the initial state reaches the handler with count 1. -/
theorem loopProtection_spec_witness :
    (processToolCall (runIdentical "read_url" "u" 3) "read_url" "u").2 =
      ProcOutcome.loopDetected ∧
    ((processToolCall initConvState "web_search" "q").2 =
        ProcOutcome.handlerInvoked ∧
      (((processToolCall initConvState "web_search" "q").1).loop
          ).lastToolCallCount = 1) := by
  constructor
  · have h := (loopProtection_spec "read_url" "u").1 3
    simpa using h
  · exact (loopProtection_spec "web_search" "q").2 initConvState rfl
      (by decide)

/-- C2: the code, evaluated at its own canonical wire form.  The
serialization of the spec's scenario call is exactly the JSON object the
system prompt mandates, and `extractToolCall` returns `null` on it —
the non-greedy first-object regex truncates the text at the first
closing brace and nothing re-balances the braces — so
`extract(serialize(call)) = call` fails. -/
theorem extractToolCall_canonical_roundtrip_fails :
    serializeToolCall wsCall =
      "\x7b\"tool\":\"web_search\",\"arguments\":\x7b\"query\":\"capital of France\"\x7d\x7d" ∧
    extractToolCall (serializeToolCall wsCall) = none ∧
    extractToolCall (serializeToolCall wsCall) ≠
      some (toolCallJson wsCall) := by
  refine ⟨rfl, rfl, ?_⟩
  intro h
  rw [show extractToolCall (serializeToolCall wsCall) = none from rfl] at h
  exact Option.noConfusion h

end ChatController

namespace ToolHandlers

/-- The validated start offset is never negative. -/
theorem effectiveStart_nonneg (sa : Option JsArg) :
    0 ≤ effectiveStart sa := by
  rcases sa with _ | a
  · simp [effectiveStart]
  · rcases a with n | _
    · simp only [effectiveStart]
      split <;> omega
    · simp [effectiveStart]

/-- The validated length is positive. -/
theorem effectiveLength_pos (la : Option JsArg) :
    0 < effectiveLength la := by
  rcases la with _ | a
  · simp [effectiveLength]
  · rcases a with n | _
    · simp only [effectiveLength]
      split <;> omega
    · simp [effectiveLength]

/-- The ECMAScript slice with clamped bounds equals the window
`[a, a+l)` taken by drop/take. -/
theorem jsSlice_window (cs : List Char) (a l : Nat) :
    jsSlice cs a (a + l) = (cs.drop a).take l := by
  unfold jsSlice
  dsimp only
  by_cases ha : a ≤ cs.length
  · rw [min_eq_left ha]
    rw [List.take_eq_take]
    simp only [List.length_take, List.length_drop]
    omega
  · have h1 : min a cs.length = cs.length := by omega
    have h2 : min (a + l) cs.length = cs.length := by omega
    rw [h1, h2]
    have hd : cs.drop cs.length = [] := by simp
    have hd2 : cs.drop a = [] := List.drop_eq_nil_of_le (by omega)
    simp [hd, hd2]

/-- C10: the `read_url` handler treats a missing or invalid `start` as 0
and a missing or invalid `length` as 1122; the returned snippet is
exactly the page text restricted to the window `[start, start+length)`,
and `hasMore` holds exactly when `start+length` stops strictly before
the end of the page text. -/
theorem read_url_window_spec (text : String) (sa la : Option JsArg) :
    ((readUrlWindow text sa la).1 =
      String.mk ((text.toList.drop (effectiveStart sa).toNat).take
        (effectiveLength la).toNat)) ∧
    ((readUrlWindow text sa la).2 = true ↔
      (effectiveStart sa).toNat + (effectiveLength la).toNat <
        text.length) ∧
    (effectiveStart none = 0 ∧
      effectiveStart (some JsArg.notNum) = 0 ∧
      (∀ n : Int, n < 0 → effectiveStart (some (JsArg.num n)) = 0) ∧
      (∀ n : Int, 0 ≤ n → effectiveStart (some (JsArg.num n)) = n)) ∧
    (effectiveLength none = 1122 ∧
      effectiveLength (some JsArg.notNum) = 1122 ∧
      (∀ n : Int, n ≤ 0 → effectiveLength (some (JsArg.num n)) = 1122) ∧
      (∀ n : Int, 0 < n → effectiveLength (some (JsArg.num n)) = n)) := by
  have hs := effectiveStart_nonneg sa
  have hl := effectiveLength_pos la
  refine ⟨?_, ?_, ?_, ?_⟩
  · simp only [readUrlWindow]
    have hsum : (effectiveStart sa + effectiveLength la).toNat =
        (effectiveStart sa).toNat + (effectiveLength la).toNat := by
      omega
    rw [hsum, jsSlice_window]
  · simp only [readUrlWindow, decide_eq_true_eq]
    have hlen : ((String.length text : Int)) = (text.length : Int) := rfl
    constructor
    · intro h; omega
    · intro h; omega
  · refine ⟨rfl, rfl, ?_, ?_⟩
    · intro n hn
      simp only [effectiveStart, if_neg (by omega : ¬ n ≥ 0)]
    · intro n hn
      simp only [effectiveStart, if_pos (by omega : n ≥ 0)]
  · refine ⟨rfl, rfl, ?_, ?_⟩
    · intro n hn
      simp only [effectiveLength, if_neg (by omega : ¬ n > 0)]
    · intro n hn
      simp only [effectiveLength, if_pos (by omega : n > 0)]

/-- C10 witness: the defaults at concrete invalid arguments, plus the
window equation at a concrete page text. -/
theorem read_url_window_spec_witness :
    effectiveStart (some (JsArg.num (-3))) = 0 ∧
    effectiveLength (some (JsArg.num 0)) = 1122 ∧
    (readUrlWindow "abcdef" (some (JsArg.num 2)) (some (JsArg.num 3))).1 =
      String.mk ((("abcdef" : String).toList.drop 2).take 3) := by
  obtain ⟨hw, -, ⟨-, -, hs0, -⟩, ⟨-, -, hl0, -⟩⟩ :=
    read_url_window_spec "abcdef" (some (JsArg.num 2))
      (some (JsArg.num 3))
  refine ⟨?_, ?_, ?_⟩
  · obtain ⟨-, -, ⟨-, -, hs, -⟩, -⟩ :=
      read_url_window_spec "x" (some (JsArg.num (-3))) none
    exact hs (-3) (by decide)
  · obtain ⟨-, -, -, ⟨-, -, hl, -⟩⟩ :=
      read_url_window_spec "x" none (some (JsArg.num 0))
    exact hl 0 (by decide)
  · simpa using hw

/-- The loop makes at most `left` further search calls. -/
theorem webSearchLoop_calls_le (env : SearchEnv) (maxA : Nat) :
    ∀ (left attempts : Nat) (qt : List String) (acc : List SearchResult)
      (sc ic : Nat),
      (webSearchLoop env maxA left attempts qt acc sc ic).searchCalls ≤
        sc + left := by
  intro left
  induction left with
  | zero => intro attempts qt acc sc ic; simp [webSearchLoop]
  | succ left ih =>
    intro attempts qt acc sc ic
    simp only [webSearchLoop]
    cases hq : qt[attempts]? with
    | none =>
      dsimp only
      omega
    | some q =>
      dsimp only
      cases hs : env.searchFn q with
      | error e =>
        dsimp only
        omega
      | ok results =>
        dsimp only
        by_cases hc : results.length ≥ 3 ∨ attempts = maxA - 1
        · rw [if_pos hc]
          dsimp only
          omega
        · rw [if_neg hc]
          cases hi : env.improve q results with
          | error e =>
            dsimp only
            omega
          | ok reply =>
            dsimp only
            by_cases hf : reply ≠ "" ∧ reply ∉ qt
            · rw [if_pos hf]
              exact le_trans (ih (attempts + 1) (qt ++ [reply])
                (acc ++ results) (sc + 1) (ic + 1)) (by omega)
            · rw [if_neg hf]
              dsimp only
              omega

/-- C9 counterexample: an attempt that yields three raw results of which
only two are unique by URL.  Fewer than 3 unique results were found and
two attempts remained, yet the handler asked for no refined query and
made no further search: the retry test compares the *raw* per-attempt
count, while deduplication runs only after the loop. -/
theorem webSearch_unique_retry_counterexample :
    (webSearchRun dupEnv "some query").1.searchCalls = 1 ∧
    (webSearchRun dupEnv "some query").1.improveCalls = 0 ∧
    (webSearchRun dupEnv "some query").1.queriesTried = ["some query"] ∧
    (webSearchRun dupEnv "some query").2.length = 2 :=
  ⟨rfl, rfl, rfl, rfl⟩

/-- C9 (amended): for every invocation, at most 3 search attempts are
made; whenever an attempt yields fewer than 3 *raw* results
(deduplication happens only after the loop) and the attempt cap has not
been reached, the handler asks the model for a refined query and — when
the reply is a fresh non-empty query — retries the search with it;
if the reply is empty or repeats a previously tried query, it stops
after this refinement request without searching again. -/
theorem webSearch_retry_spec (env : SearchEnv) :
    (∀ q : String, (webSearchRun env q).1.searchCalls ≤ 3) ∧
    (∀ (left attempts : Nat) (qt : List String) (q : String)
        (results : List SearchResult) (reply : String)
        (acc : List SearchResult) (sc ic : Nat),
      qt[attempts]? = some q →
      env.searchFn q = Except.ok results →
      results.length < 3 →
      attempts ≠ MAX_ATTEMPTS - 1 →
      env.improve q results = Except.ok reply →
      reply ≠ "" →
      reply ∉ qt →
      webSearchLoop env MAX_ATTEMPTS (left + 1) attempts qt acc sc ic =
        webSearchLoop env MAX_ATTEMPTS left (attempts + 1) (qt ++ [reply])
          (acc ++ results) (sc + 1) (ic + 1)) ∧
    (∀ (left attempts : Nat) (qt : List String) (q : String)
        (results : List SearchResult) (reply : String)
        (acc : List SearchResult) (sc ic : Nat),
      qt[attempts]? = some q →
      env.searchFn q = Except.ok results →
      results.length < 3 →
      attempts ≠ MAX_ATTEMPTS - 1 →
      env.improve q results = Except.ok reply →
      (reply = "" ∨ reply ∈ qt) →
      webSearchLoop env MAX_ATTEMPTS (left + 1) attempts qt acc sc ic =
        { queriesTried := qt, allResults := acc ++ results
          searchCalls := sc + 1, improveCalls := ic + 1 }) := by
  refine ⟨?_, ?_, ?_⟩
  · intro q
    simpa using webSearchLoop_calls_le env MAX_ATTEMPTS MAX_ATTEMPTS 0
      [q] [] 0 0
  · intro left attempts qt q results reply acc sc ic hq hs hlt hcap hi
      hne hfresh
    simp only [webSearchLoop, hq, hs]
    have hcond : ¬ (results.length ≥ 3 ∨ attempts = MAX_ATTEMPTS - 1) := by
      push_neg
      exact ⟨by omega, hcap⟩
    rw [if_neg hcond]
    simp only [hi]
    rw [if_pos ⟨hne, hfresh⟩]
  · intro left attempts qt q results reply acc sc ic hq hs hlt hcap hi
      hstop
    simp only [webSearchLoop, hq, hs]
    have hcond : ¬ (results.length ≥ 3 ∨ attempts = MAX_ATTEMPTS - 1) := by
      push_neg
      exact ⟨by omega, hcap⟩
    rw [if_neg hcond]
    simp only [hi]
    have : ¬ (reply ≠ "" ∧ reply ∉ qt) := by
      rcases hstop with h | h
      · exact fun hc => hc.1 h
      · exact fun hc => hc.2 h
    rw [if_neg this]

/-- C9 witness: a first attempt with two results leads to a refinement
request and a retry with the fresh query `q2`. -/
theorem webSearch_retry_spec_witness :
    webSearchLoop retryEnv MAX_ATTEMPTS 3 0 ["q1"] [] 0 0 =
      webSearchLoop retryEnv MAX_ATTEMPTS 2 1 ["q1", "q2"]
        [{ title := "A", url := "u1", snippet := "a" },
         { title := "B", url := "u2", snippet := "b" }] 1 1 := by
  have h := (webSearch_retry_spec retryEnv).2.1 2 0 ["q1"] "q1"
    [{ title := "A", url := "u1", snippet := "a" },
     { title := "B", url := "u2", snippet := "b" }] "q2" [] 0 0
    rfl rfl (by decide) (by decide) rfl (by decide) (by decide)
  simpa using h

end ToolHandlers

namespace ExecutionAgent

/-- C7 counterexample: a plan whose first step names an unregistered
tool.  The executor records an error for step 1 and then *executes step
2 anyway* — an unknown tool does not halt the walk, contradicting the
claim that no step after the failing one runs. -/
theorem executePlan_unknownTool_continues_counterexample :
    (executePlan contEnv 10 unknownToolPlan).results =
      [StepResult.err 1 (unknownToolMsg "mystery"),
       StepResult.ok 2 JsVal.undef] := rfl

/-- C7 (amended): a step whose tool is not in the registry gets an
error result recorded and the walk *continues* with the next step; a
step whose handler throws (including a throw from inside the `read_url`
deep-reading loop) gets an error result recorded and the walk *halts* —
no step after it is executed.  The last two conjuncts state how the
loop consumes the dispatch outcome: `next` runs the loop on the
successor state, `halted` ends the run with the dispatch state. -/
theorem executePlan_failure_modes (env : ExecEnv) (st : ExecState)
    (step : PlanStep) :
    (env.handlers step.tool = none →
      execStepDispatch env st step = DispatchOut.next
        { st with
          narrations := st.narrations ++
            [stepNarration step, unknownToolMsg step.tool]
          results := st.results ++
            [StepResult.err step.step (unknownToolMsg step.tool)]
          i := st.i + 1 }) ∧
    (∀ (f : Args → HandlerOutcome) (m : String),
      env.handlers step.tool = some f →
      (step.tool == "read_url") = false →
      f step.arguments = HandlerOutcome.thrown m →
      execStepDispatch env st step = DispatchOut.halted
        { st with
          narrations := st.narrations ++
            [stepNarration step, stepErrorMsg step.step m]
          results := st.results ++
            [StepResult.err step.step (stepErrorMsg step.step m)] }) ∧
    (∀ (f : Args → HandlerOutcome) (m : String),
      env.handlers step.tool = some f →
      (step.tool == "read_url") = true →
      deepRead env f (step.arguments.url.getD "") 5 0 0 "" =
        Except.error m →
      execStepDispatch env st step = DispatchOut.halted
        { st with
          narrations := st.narrations ++
            [stepNarration step, stepErrorMsg step.step m]
          results := st.results ++
            [StepResult.err step.step (stepErrorMsg step.step m)] }) ∧
    (∀ (fuel : Nat) (st' : ExecState),
      st.plan[st.i]? = some step →
      (step.tool == "summarize") = false →
      ¬ ((step.tool == "read_url") = true ∧
          step.arguments.url = some SENTINEL_URL) →
      execStepDispatch env st step = DispatchOut.next st' →
      execLoop env (fuel + 1) st = execLoop env fuel st') ∧
    (∀ (fuel : Nat) (st' : ExecState),
      st.plan[st.i]? = some step →
      (step.tool == "summarize") = false →
      ¬ ((step.tool == "read_url") = true ∧
          step.arguments.url = some SENTINEL_URL) →
      execStepDispatch env st step = DispatchOut.halted st' →
      execLoop env (fuel + 1) st = st') := by
  refine ⟨?_, ?_, ?_, ?_, ?_⟩
  · intro hnone
    simp [execStepDispatch, hnone]
  · intro f m hsome hnotread hthrow
    simp [execStepDispatch, hsome, hnotread, hthrow]
  · intro f m hsome hread hdeep
    simp [execStepDispatch, hsome, hread, hdeep]
  · intro fuel st' hstep hnotsum hnotsent hdisp
    simp only [execLoop, hstep]
    rw [if_neg (by simp [hnotsum]), if_neg hnotsent, hdisp]
  · intro fuel st' hstep hnotsum hnotsent hdisp
    simp only [execLoop, hstep]
    rw [if_neg (by simp [hnotsum]), if_neg hnotsent, hdisp]

/-- C7 witness: a concrete throwing step is recorded as an error and
ends the dispatch with a `halted` outcome. -/
theorem executePlan_failure_modes_witness :
    execStepDispatch throwEnv (initExecState [throwStep]) throwStep =
      DispatchOut.halted
        { initExecState [throwStep] with
          narrations := [stepNarration throwStep, stepErrorMsg 1 "kaput"]
          results := [StepResult.err 1 (stepErrorMsg 1 "kaput")] } := by
  have h := (executePlan_failure_modes throwEnv (initExecState [throwStep])
    throwStep).2.1 (fun _ => HandlerOutcome.thrown "kaput") "kaput"
    rfl rfl rfl
  simpa [initExecState, throwStep] using h

/-- C8: when the loop reaches a `read_url` step whose `url` is still the
sentinel, it resolves it positionally: with no search results on record
the step is skipped with a narration (nothing executed, nothing recorded
in `results`); with results on record but no entry at the step's index
among the plan's `read_url` steps it is likewise skipped with a
narration; and when the entry exists, the step's `url` becomes that
entry's `url` and the step is dispatched as usual (the claim's "Nth
read_url step receives the Nth entry of the most recent web_search
result set", with `readUrlIndexAt` counting the `read_url` steps before
the current position). -/
theorem executePlan_sentinel_resolution (env : ExecEnv) (fuel : Nat)
    (st : ExecState) (step : PlanStep)
    (hstep : st.plan[st.i]? = some step)
    (htool : step.tool = "read_url")
    (hurl : step.arguments.url = some SENTINEL_URL) :
    (st.webSearchResults = none →
      execLoop env (fuel + 1) st = execLoop env fuel
        { st with
          narrations := st.narrations ++
            ["Skipping read_url step: No web search results available."]
          i := st.i + 1 }) ∧
    (∀ rs : List SearchResult, st.webSearchResults = some rs →
      rs[readUrlIndexAt st.plan st.i]? = none →
      execLoop env (fuel + 1) st = execLoop env fuel
        { st with
          narrations := st.narrations ++
            ["Skipping read_url step #" ++
              toString (readUrlIndexAt st.plan st.i + 1) ++
              ": No corresponding web search result."]
          i := st.i + 1 }) ∧
    (∀ (rs : List SearchResult) (r : SearchResult),
      st.webSearchResults = some rs →
      rs[readUrlIndexAt st.plan st.i]? = some r →
      (let resolved : PlanStep :=
        { step with arguments :=
            { step.arguments with url := some r.url } }
      execLoop env (fuel + 1) st =
        execDispatchContinue env fuel (execStepDispatch env
          { st with plan := st.plan.set st.i resolved } resolved))) := by
  have hnotsum : (step.tool == "summarize") = false := by
    simp [htool]
  have hsent : (step.tool == "read_url") = true ∧
      step.arguments.url = some SENTINEL_URL := by
    simp [htool, hurl]
  refine ⟨?_, ?_, ?_⟩
  · intro hnone
    simp only [execLoop, hstep]
    rw [if_neg (by simp [hnotsum]), if_pos hsent, hnone]
  · intro rs hsome hnoentry
    simp only [execLoop, hstep]
    rw [if_neg (by simp [hnotsum]), if_pos hsent, hsome]
    simp only [hnoentry]
  · intro rs r hsome hentry
    simp only [execLoop, hstep]
    rw [if_neg (by simp [hnotsum]), if_pos hsent, hsome]
    simp only [hentry, execDispatchContinue]

/-- C8 witness: a lone sentinel `read_url` step with no search results
on record is skipped with the narrated explanation, executes nothing
and records nothing. -/
theorem executePlan_sentinel_resolution_witness :
    (execLoop contEnv 2 (initExecState [sentinelStep])).narrations =
      ["Skipping read_url step: No web search results available."] ∧
    (execLoop contEnv 2 (initExecState [sentinelStep])).results = [] := by
  have h := (executePlan_sentinel_resolution contEnv 1
    (initExecState [sentinelStep]) sentinelStep rfl rfl rfl).1 rfl
  rw [h]
  exact ⟨rfl, rfl⟩

end ExecutionAgent
